import Mathlib

/-!
Verification of the markdown editing core of `scripts/markdown-tools.py`
(knowing-mcp).  Python strings are modelled as `List Char` (sequences of
Unicode code points, as Python indexes them); the mutable line buffer of
`MarkdownEditor` is a `List (List Char)`.  The external regex engine
(Python `re`), the YAML serializer and the mdformat formatter are
parameters of the embedding; everything else is translated directly from
the source.  Character classes of Python regexes used by
`normalize_heading` are modelled at ASCII scope.
-/

deriving instance DecidableEq for Except

namespace MdTools

abbrev Str := List Char

/-- Python `str.strip()` whitespace set (ASCII scope). -/
def pyWs : List Char := [' ', '\t', '\n', '\r', '\x0b', '\x0c']

def pyIsSpace (c : Char) : Bool := pyWs.contains c

/-- Python `str.strip()`: remove whitespace from both ends. -/
def pyStrip (l : Str) : Str :=
  ((l.dropWhile pyIsSpace).reverse.dropWhile pyIsSpace).reverse

/-- Python `str.startswith`: `leadsWith p l` is true when `p` is an initial
segment of `l`. -/
def leadsWith : Str → Str → Bool
  | [], _ => true
  | _ :: _, [] => false
  | p :: ps, c :: cs => p = c && leadsWith ps cs

/-- Prepend a character to the first piece of a split result. -/
def consHead (c : Char) : List Str → List Str
  | [] => [[c]]
  | h :: t => (c :: h) :: t

/-- Python `content.split('\n')`. -/
def splitLF : Str → List Str
  | [] => [[]]
  | c :: rest =>
    if c = '\n' then [] :: splitLF rest
    else consHead c (splitLF rest)

/-- Python `content.split('\r\n')`. -/
def splitCRLF : Str → List Str
  | [] => [[]]
  | [c] => [[c]]
  | c :: d :: rest =>
    if c = '\r' ∧ d = '\n' then [] :: splitCRLF rest
    else consHead c (splitCRLF (d :: rest))

/-- Python `sep.join(parts)`. -/
def joinSep (sep : Str) : List Str → Str
  | [] => []
  | [x] => x
  | x :: xs => x ++ sep ++ joinSep sep xs

/-- Python `'\r\n' in content`. -/
def containsCRLF : Str → Bool
  | [] => false
  | c :: rest => (c = '\r' && leadsWith ['\n'] rest) || containsCRLF rest

theorem consHead_ne_nil (c : Char) (ls : List Str) : consHead c ls ≠ [] := by
  cases ls <;> simp [consHead]

theorem splitLF_ne_nil (l : Str) : splitLF l ≠ [] := by
  induction l with
  | nil => simp [splitLF]
  | cons c rest ih =>
    rw [splitLF]
    split
    · simp
    · exact consHead_ne_nil c _

theorem splitCRLF_ne_nil (l : Str) : splitCRLF l ≠ [] := by
  induction l using splitCRLF.induct with
  | case1 => simp [splitCRLF]
  | case2 c => simp [splitCRLF]
  | case3 c d rest h ih =>
    rw [splitCRLF, if_pos h]
    simp
  | case4 c d rest h ih =>
    rw [splitCRLF, if_neg h]
    exact consHead_ne_nil c _

theorem joinSep_cons_ne (sep : Str) (x : Str) (xs : List Str) (h : xs ≠ []) :
    joinSep sep (x :: xs) = x ++ sep ++ joinSep sep xs := by
  cases xs with
  | nil => exact absurd rfl h
  | cons y ys => rfl

theorem joinSep_consHead (sep : Str) (c : Char) (ls : List Str) (h : ls ≠ []) :
    joinSep sep (consHead c ls) = c :: joinSep sep ls := by
  cases ls with
  | nil => exact absurd rfl h
  | cons hh tt =>
    cases tt with
    | nil => rfl
    | cons y ys => simp [consHead, joinSep]

/-- Joining with `'\n'` inverts splitting on `'\n'`: the loader's
`content.split('\n')` composed with `get_content`'s `'\n'.join` is the
identity on the content. -/
theorem joinSep_splitLF (l : Str) : joinSep ['\n'] (splitLF l) = l := by
  induction l with
  | nil => rfl
  | cons c rest ih =>
    rw [splitLF]
    split
    · rename_i h
      rw [joinSep_cons_ne _ _ _ (splitLF_ne_nil rest), ih]
      subst h
      rfl
    · rw [joinSep_consHead _ _ _ (splitLF_ne_nil rest), ih]

/-- Joining with `"\r\n"` inverts splitting on `"\r\n"`. -/
theorem joinSep_splitCRLF (l : Str) : joinSep ['\r', '\n'] (splitCRLF l) = l := by
  induction l using splitCRLF.induct with
  | case1 => rfl
  | case2 c => rfl
  | case3 c d rest h ih =>
    rw [splitCRLF, if_pos h]
    rw [joinSep_cons_ne _ _ _ (splitCRLF_ne_nil rest), ih]
    obtain ⟨hc, hd⟩ := h
    subst hc; subst hd
    rfl
  | case4 c d rest h ih =>
    rw [splitCRLF, if_neg h]
    rw [joinSep_consHead _ _ _ (splitCRLF_ne_nil (d :: rest)), ih]

/-! ### Error codes (`class ErrorCode(Enum)`) -/

namespace ErrorCode

def PRECONDITION_FAILED : String := "PRECONDITION_FAILED"

def NO_MATCH : String := "NO_MATCH"

def AMBIGUOUS_MATCH : String := "AMBIGUOUS_MATCH"

def OUT_OF_RANGE : String := "OUT_OF_RANGE"

def MARKDOWN_BROKEN : String := "MARKDOWN_BROKEN"

def IO_ERROR : String := "IO_ERROR"

def CONFLICTING_EDITS : String := "CONFLICTING_EDITS"

def INVALID_OPERATION : String := "INVALID_OPERATION"

def AMBIGUOUS_HEADING : String := "AMBIGUOUS_HEADING"

def SECTION_NOT_FOUND : String := "SECTION_NOT_FOUND"

def FORMATTER_FAILED : String := "FORMATTER_FAILED"

def INVALID_REGEX : String := "INVALID_REGEX"

end ErrorCode

/-! ### Data model (`@dataclass` definitions) -/

/-- `@dataclass Diagnostic`. -/
structure Diagnostic where
  severity : String
  code : Option String
  message : String
  line : Option Int := none
  col : Option Int := none
  source : Option String := none
deriving Repr, DecidableEq

/-- `@dataclass Section`.  Line numbers are the 0-based values produced by
`_parse_structure`. -/
structure Section where
  heading_path : List Str
  canonical_heading_path : List Str
  section_id : String
  level : Nat
  start_line : Nat
  end_line : Nat
  heading_line : Nat
deriving Repr, DecidableEq

/-- `@dataclass CodeBlock`. -/
structure CodeBlock where
  start_line : Nat
  end_line : Nat
  info_string : Str
  language : Option Str
deriving Repr, DecidableEq

/-- `@dataclass TableInfo` (field `section` renamed: keyword). -/
structure TableInfo where
  start_line : Nat
  end_line : Nat
  sectionPath : Option (List Str)
deriving Repr, DecidableEq

/-- `@dataclass Match` as appended to `MarkdownEditor.matches`: 1-based
line/col; `start_pos`/`end_pos` are its `Position` pairs. -/
structure MatchRec where
  line : Nat
  col : Nat
  text : Str
  start_pos : Nat × Nat
  end_pos : Nat × Nat
deriving Repr, DecidableEq

/-- `class MarkdownDocument` after `load` has run.  `content` is the decoded
text; `sha256` is the hex digest of the raw file bytes (hashing is
external, so the digest is carried as data).  The structural fields
(`sections`, `code_blocks`, `tables`, front matter) are produced by
`_parse_structure` from the external markdown-it token stream and are
likewise carried as data. -/
structure MarkdownDoc where
  sha256 : String
  content : Str
  eol : String
  lines : List Str
  sections : List Section
  code_blocks : List CodeBlock
  tables : List TableInfo
  front_matter : Option (List (String × String))
  front_matter_lines : Option (Nat × Nat)

/-- The eol-detection and line-splitting part of `MarkdownDocument.load`
(lines 224-233): CRLF when the content contains `"\r\n"`, else LF. -/
def load (sha : String) (content : Str) (sections : List Section)
    (code_blocks : List CodeBlock) (tables : List TableInfo)
    (fm : Option (List (String × String))) (fml : Option (Nat × Nat)) :
    MarkdownDoc :=
  if containsCRLF content then
    ⟨sha, content, "CRLF", splitCRLF content, sections, code_blocks, tables, fm, fml⟩
  else
    ⟨sha, content, "LF", splitLF content, sections, code_blocks, tables, fm, fml⟩

/-- `MarkdownDocument.is_in_code_block`. -/
def is_in_code_block (doc : MarkdownDoc) (line : Nat) : Bool :=
  doc.code_blocks.any (fun b => b.start_line ≤ line && line < b.end_line)

/-- `MarkdownDocument.is_in_table`. -/
def is_in_table (doc : MarkdownDoc) (line : Nat) : Bool :=
  doc.tables.any (fun t => t.start_line ≤ line && line < t.end_line)

/-- One iteration of the `validate_fences` scan.  The Python list keeps the
stack top at the end (`append`/`[-1]`/`pop`); here the top is the head. -/
def fence_step (stack : List Char) (line : Str) : List Char :=
  let stripped := pyStrip line
  if leadsWith ['`', '`', '`'] stripped || leadsWith ['~', '~', '~'] stripped then
    let fence_char := stripped.headD ' '
    match stack with
    | [] => [fence_char]
    | top :: rest => if top ≠ fence_char then fence_char :: top :: rest else rest
  else stack

/-- `MarkdownDocument.validate_fences` (lines 412-434): run the stack scan;
if any fences are left open emit a single diagnostic whose message carries
the count. -/
def validate_fences (doc : MarkdownDoc) : List Diagnostic :=
  let fence_stack := doc.lines.foldl fence_step []
  if fence_stack.isEmpty then []
  else
    [{ severity := "error", code := some "UNBALANCED_FENCE",
       message := "Unbalanced code fence (" ++ toString fence_stack.length ++ " unclosed)",
       source := some "validator" }]

/-! ### `normalize_heading` (ASCII scope for the regex character classes) -/

/-- Split at the first backtick: `some (before, after)` when one exists. -/
def breakAtBacktick : Str → Option (Str × Str)
  | [] => none
  | c :: rest =>
    if c = '`' then some ([], rest)
    else (breakAtBacktick rest).map (fun p => (c :: p.1, p.2))

theorem breakAtBacktick_length (l s a : Str)
    (h : breakAtBacktick l = some (s, a)) : l.length = s.length + 1 + a.length := by
  induction l generalizing s a with
  | nil => simp [breakAtBacktick] at h
  | cons c rest ih =>
    rw [breakAtBacktick] at h
    split at h
    · simp only [Option.some.injEq, Prod.mk.injEq] at h
      obtain ⟨h1, h2⟩ := h
      subst h1; subst h2
      simp
      omega
    · rcases heq : breakAtBacktick rest with _ | ⟨s', a'⟩ <;> rw [heq] at h
      · simp at h
      · simp only [Option.map_some', Option.some.injEq, Prod.mk.injEq] at h
        obtain ⟨h1, h2⟩ := h
        subst h1; subst h2
        have := ih s' a' heq
        simp only [List.length_cons, this]
        omega

/-- ``re.sub(r'`([^`]+)`', r'\1', text)``: delete paired backticks, keeping
their (non-empty) contents; scanning resumes after each match. -/
def remCode : Str → Str
  | [] => []
  | c :: rest =>
    if c = '`' then
      match h : breakAtBacktick rest with
      | some (seg, after) =>
        if seg = [] then c :: remCode rest else seg ++ remCode after
      | none => c :: remCode rest
    else c :: remCode rest
termination_by l => l.length
decreasing_by
  all_goals simp only [List.length_cons]
  all_goals first
    | omega
    | (have hb := breakAtBacktick_length rest seg after h; omega)

theorem dropWhile_length_le (p : Char → Bool) (l : Str) :
    (l.dropWhile p).length ≤ l.length := by
  induction l with
  | nil => simp
  | cons c rest ih =>
    rw [List.dropWhile_cons]
    split
    · exact Nat.le_succ_of_le ih
    · simp

/-- ASCII scope for Python's Unicode-aware `\w`. -/
def pyIsWordChar (c : Char) : Bool := c.isAlphanum || c = '_'

/-- `re.sub(r'\s+', ' ', text)`: collapse whitespace runs to single spaces. -/
def collapseWs : Str → Str
  | [] => []
  | c :: rest =>
    if pyIsSpace c then ' ' :: collapseWs (rest.dropWhile pyIsSpace)
    else c :: collapseWs rest
termination_by l => l.length
decreasing_by
  all_goals simp only [List.length_cons]
  all_goals first
    | omega
    | (have hb := dropWhile_length_le pyIsSpace rest; omega)

/-- `normalize_heading` (lines 145-169). -/
def normalize_heading (text : Str) : Str :=
  let t1 := remCode text
  let t2 := t1.filter (fun c => !(c = '*' || c = '_' || c = '~'))
  let t3 := t2.filter (fun c => pyIsWordChar c || pyIsSpace c || c = '-')
  let t4 := collapseWs t3
  pyStrip (t4.map Char.toLower)

/-! ### Section lookup -/

/-- The per-section match test inside `get_section_by_path`: the three
`matches.append` conditions (each guarded by `continue`, so a section is
appended at most once — a disjunction is equivalent). -/
def section_path_matches (headingPath normalized : List Str)
    (include_subsections : Bool) (s : Section) : Bool :=
  s.heading_path = headingPath || s.canonical_heading_path = normalized ||
    (include_subsections && normalized.length < s.canonical_heading_path.length &&
      s.canonical_heading_path.take normalized.length = normalized)

/-- `MarkdownDocument.get_section_by_path` (lines 354-389): returns
`(section, error_code)`. -/
def get_section_by_path (doc : MarkdownDoc) (headingPath : List Str)
    (include_subsections : Bool := false) : Option Section × Option String :=
  let normalized := headingPath.map normalize_heading
  match doc.sections.filter (section_path_matches headingPath normalized include_subsections) with
  | [] => (none, some ErrorCode.SECTION_NOT_FOUND)
  | [s] => (some s, none)
  | _ => (none, some ErrorCode.AMBIGUOUS_HEADING)

/-- `MarkdownDocument.get_section_by_id`. -/
def get_section_by_id (doc : MarkdownDoc) (section_id : String) : Option Section :=
  doc.sections.find? (fun s => s.section_id = section_id)

/-! ### Python index/slice semantics

Edit positions arrive as arbitrary JSON integers, so they are `Int` here,
and column accesses go through Python slice clamping. -/

/-- Clamp a Python slice endpoint to `[0, n]`: negative indices count from
the end. -/
def pyBound (n : Nat) (i : Int) : Nat :=
  if i < 0 then (((n : Int) + i).toNat).min n else i.toNat.min n

/-- Python `l[:b]`. -/
def pySliceTo (l : Str) (b : Int) : Str := l.take (pyBound l.length b)

/-- Python `l[a:]`. -/
def pySliceFrom (l : Str) (a : Int) : Str := l.drop (pyBound l.length a)

/-- Python `l[a:b]`. -/
def pySlice (l : Str) (a b : Int) : Str :=
  (l.take (pyBound l.length b)).drop (pyBound l.length a)

/-- Python `range(a, b)` over ints. -/
def intRange (a b : Int) : List Int :=
  (List.range (b - a).toNat).map (fun k => a + k)

/-- `self.buffer[i]` for an index already validated to be in `[0, len)`. -/
def getLine (buffer : List Str) (i : Int) : Str := buffer.getD i.toNat []

/-! ### The editor (`class MarkdownEditor`) -/

/-- The mutable state of a `MarkdownEditor`: `buffer = list(doc.lines)`,
accumulated `diagnostics` and the reported match list (`self.matches`). -/
structure EditorState where
  buffer : List Str
  diagnostics : List Diagnostic
  matchList : List MatchRec
deriving Repr, DecidableEq

/-- `self.diagnostics.append(d); return False` — every failure path of
every operation has exactly this shape. -/
def failD (st : EditorState) (d : Diagnostic) : Bool × EditorState :=
  (false, { st with diagnostics := st.diagnostics ++ [d] })

/-- `@dataclass Position` as supplied inside a `replace_range` edit. -/
structure PosP where
  line : Int
  col : Int
deriving Repr, DecidableEq

/-- `@dataclass Range` (field `end` renamed: keyword). -/
structure RangeP where
  start : PosP
  stop : PosP
deriving Repr, DecidableEq

/-- Fields of a `replace_range` edit. -/
structure ReplaceRangeEdit where
  rng : RangeP
  replacement : Str
  expectedText : Option Str := none
deriving Repr, DecidableEq

/-- `MarkdownEditor._apply_replace_range` (lines 469-542), translated
literally: the supplied positions are used directly as buffer indices
(no 1-based to 0-based conversion appears in the source) and only the
line numbers are validated — columns go through Python slice clamping. -/
def apply_replace_range (e : ReplaceRangeEdit) (st : EditorState) :
    Bool × EditorState :=
  let start := e.rng.start
  let stop := e.rng.stop
  if start.line < 0 ∨ (st.buffer.length : Int) ≤ start.line then
    failD st { severity := "error", code := some ErrorCode.OUT_OF_RANGE,
               message := "Start line " ++ toString start.line ++ " out of range",
               line := some start.line, source := some "editor" }
  else if stop.line < 0 ∨ (st.buffer.length : Int) ≤ stop.line then
    failD st { severity := "error", code := some ErrorCode.OUT_OF_RANGE,
               message := "End line " ++ toString stop.line ++ " out of range",
               line := some stop.line, source := some "editor" }
  else
    let current_text :=
      if start.line = stop.line then
        pySlice (getLine st.buffer start.line) start.col stop.col
      else
        joinSep ['\n']
          ([pySliceFrom (getLine st.buffer start.line) start.col] ++
           (intRange (start.line + 1) stop.line).map (getLine st.buffer) ++
           [pySliceTo (getLine st.buffer stop.line) stop.col])
    let mismatch : Bool :=
      match e.expectedText with
      | some expected => current_text != expected
      | none => false
    if mismatch then
      failD st { severity := "error", code := some ErrorCode.PRECONDITION_FAILED,
                 message := "Expected text mismatch at line " ++ toString start.line,
                 line := some start.line, source := some "editor" }
    else if start.line = stop.line then
      let updated :=
        pySliceTo (getLine st.buffer start.line) start.col ++ e.replacement ++
        pySliceFrom (getLine st.buffer start.line) stop.col
      (true, { st with buffer := st.buffer.set start.line.toNat updated })
    else
      let new_line :=
        pySliceTo (getLine st.buffer start.line) start.col ++ e.replacement ++
        pySliceFrom (getLine st.buffer stop.line) stop.col
      let newBuf :=
        st.buffer.take start.line.toNat ++ [new_line] ++
        st.buffer.drop (stop.line + 1).toNat
      (true, { st with buffer := newBuf })

/-- The `re` flag set built from the `flags` string (lines 561-567). -/
structure RegexFlags where
  i : Bool
  m : Bool
  s : Bool
deriving Repr, DecidableEq

def flags_of (flags_str : String) : RegexFlags :=
  ⟨flags_str.contains 'i', flags_str.contains 'm', flags_str.contains 's'⟩

/-- The external Python `re` module: `escape` and `compile`.  A compiled
regex is its `finditer` on one line, producing the `(match.start(),
match.end())` spans in document order. -/
structure RegexEngine where
  escape : String → String
  compile : String → RegexFlags → Except String (Str → List (Nat × Nat))

/-- The JSON value of the `occurrence` field: `"all"`, an int, or
anything else. -/
inductive OccurrenceVal where
  | all
  | num (k : Int)
  | invalid (shown : String)
deriving Repr, DecidableEq

/-- The JSON value of the `scope` field. -/
inductive ScopeVal where
  | whole_document
  | sectionScope (headingPath : List Str) (includeSubsections : Bool)
  | unknown (kind : String)
deriving Repr, DecidableEq

/-- Fields of a `replace_match` edit, after the `edit.get(...)` defaults
of lines 546-555 have been applied. -/
structure ReplaceMatchEdit where
  pattern : String
  replacement : Str
  literal : Bool := true
  flags : String := ""
  occurrence : OccurrenceVal := .all
  expectedMatches : Option Int := none
  scope : ScopeVal := .whole_document
  codeBlocks : String := "exclude"
  linksAndImages : String := "exclude"
  tables : String := "exclude"
deriving Repr, DecidableEq

/-- Scope resolution of `_apply_replace_match` (lines 580-607): the
`(start_line, end_line)` pair, or the diagnostic of the failure path. -/
def match_scope_lines (doc : MarkdownDoc) (buffer : List Str) (scope : ScopeVal) :
    Except Diagnostic (Int × Int) :=
  match scope with
  | .whole_document => .ok (0, (buffer.length : Int) - 1)
  | .sectionScope hp incl =>
    match get_section_by_path doc hp incl with
    | (some sec, _) => .ok (sec.start_line, sec.end_line)
    | (none, ec) =>
      .error { severity := "error",
               code := some (ec.getD ErrorCode.SECTION_NOT_FOUND),
               message := "Section not found: " ++
                 String.intercalate " > " (hp.map String.mk),
               source := some "editor" }
  | .unknown kind =>
    .error { severity := "error", code := some ErrorCode.INVALID_OPERATION,
             message := "Unknown scope kind: " ++ kind, source := some "editor" }

/-- The match-collection loop of `_apply_replace_match` (lines 609-622):
each scanned line contributes its `finditer` spans, with code-block and
table lines skipped under the `exclude` policies. -/
def find_matches (doc : MarkdownDoc) (buffer : List Str)
    (regex : Str → List (Nat × Nat)) (codeBlocksPolicy tablesPolicy : String)
    (start_line end_line : Int) : List (Nat × (Nat × Nat)) :=
  (intRange start_line (end_line + 1)).flatMap (fun ln =>
    let n := ln.toNat
    if codeBlocksPolicy = "exclude" && is_in_code_block doc n then []
    else if tablesPolicy = "exclude" && is_in_table doc n then []
    else (regex (buffer.getD n [])).map (fun sp => (n, sp)))

/-- `Match(...)` as appended on lines 642-649 (1-based conversion). -/
def mk_match_rec (buffer : List Str) (lm : Nat × (Nat × Nat)) : MatchRec :=
  { line := lm.1 + 1, col := lm.2.1 + 1,
    text := ((buffer.getD lm.1 []).take lm.2.2).drop lm.2.1,
    start_pos := (lm.1 + 1, lm.2.1 + 1),
    end_pos := (lm.1 + 1, lm.2.2 + 1) }

/-- The replacement loop of lines 673-679: each `(line_num, match)` entry
rewrites its line as `line[:start] + replacement + line[end:]`. -/
def apply_span_list (replacement : Str) (to_replace : List (Nat × (Nat × Nat)))
    (buffer : List Str) : List Str :=
  to_replace.foldl (fun buf lm =>
    let line := buf.getD lm.1 []
    buf.set lm.1 (line.take lm.2.1 ++ replacement ++ line.drop lm.2.2)) buffer

/-- `MarkdownEditor._apply_replace_match` (lines 544-681). -/
def apply_replace_match (engine : RegexEngine) (doc : MarkdownDoc)
    (e : ReplaceMatchEdit) (st : EditorState) : Bool × EditorState :=
  let pattern := if e.literal then engine.escape e.pattern else e.pattern
  match engine.compile pattern (flags_of e.flags) with
  | .error err =>
    failD st { severity := "error", code := some ErrorCode.INVALID_OPERATION,
               message := "Invalid regex pattern: " ++ err, source := some "editor" }
  | .ok regex =>
    match match_scope_lines doc st.buffer e.scope with
    | .error d => failD st d
    | .ok se =>
      let ms := find_matches doc st.buffer regex e.codeBlocks e.tables se.1 se.2
      let expected_fail : Option Diagnostic :=
        match e.expectedMatches with
        | some exp =>
          if (ms.length : Int) ≠ exp then
            if ms.length = 0 then
              some { severity := "error", code := some ErrorCode.NO_MATCH,
                     message := "No matches found (expected " ++ toString exp ++ ")",
                     source := some "editor" }
            else
              some { severity := "error", code := some ErrorCode.AMBIGUOUS_MATCH,
                     message := "Found " ++ toString ms.length ++
                       " matches (expected " ++ toString exp ++ ")",
                     source := some "editor" }
          else none
        | none => none
      match expected_fail with
      | some d => failD st d
      | none =>
        let st1 := { st with matchList := st.matchList ++ ms.map (mk_match_rec st.buffer) }
        match e.occurrence with
        | .all =>
          (true, { st1 with buffer := apply_span_list e.replacement ms.reverse st1.buffer })
        | .num k =>
          if k < 1 ∨ (ms.length : Int) < k then
            failD st1 { severity := "error", code := some ErrorCode.OUT_OF_RANGE,
                        message := "Occurrence " ++ toString k ++
                          " out of range (found " ++ toString ms.length ++ " matches)",
                        source := some "editor" }
          else
            let newBuf :=
              apply_span_list e.replacement [ms.getD (k - 1).toNat (0, 0, 0)] st1.buffer
            (true, { st1 with buffer := newBuf })
        | .invalid shown =>
          failD st1 { severity := "error", code := some ErrorCode.INVALID_OPERATION,
                      message := "Invalid occurrence: " ++ shown, source := some "editor" }

/-! ### Section-addressed operations -/

/-- Python truthiness for an optional string field. -/
def truthyStr : Option String → Bool
  | some s => s ≠ ""
  | none => false

/-- Python truthiness for an optional list field. -/
def truthyList : Option (List Str) → Bool
  | some l => !l.isEmpty
  | none => false

/-- The section resolution block shared verbatim by `_apply_replace_section`
(lines 700-728) and `_apply_insert_after_heading` (lines 798-826). -/
def resolve_section_ref (doc : MarkdownDoc) (sectionId : Option String)
    (headingPath : Option (List Str)) : Except Diagnostic Section :=
  if truthyStr sectionId then
    match get_section_by_id doc (sectionId.getD "") with
    | some sec => .ok sec
    | none =>
      .error { severity := "error", code := some ErrorCode.SECTION_NOT_FOUND,
               message := "Section not found with ID: " ++ sectionId.getD "",
               source := some "editor" }
  else if truthyList headingPath then
    match get_section_by_path doc (headingPath.getD []) with
    | (some sec, _) => .ok sec
    | (none, ec) =>
      .error { severity := "error",
               code := some (ec.getD ErrorCode.SECTION_NOT_FOUND),
               message := "Section not found: " ++
                 String.intercalate " > " ((headingPath.getD []).map String.mk),
               source := some "editor" }
  else
    .error { severity := "error", code := some ErrorCode.INVALID_OPERATION,
             message := "Either headingPath or sectionId must be provided",
             source := some "editor" }

/-- Fields of a `replace_section` edit.  `markdown = none` models a JSON
edit without the required `markdown` key. -/
structure ReplaceSectionEdit where
  headingPath : Option (List Str) := none
  sectionId : Option String := none
  markdown : Option Str := none
  keepSubsections : Bool := false
deriving Repr, DecidableEq

/-- The subsection predicate of the loop on lines 739-744. -/
def subsection_test (headingPath : List Str) (sec : Section) (s : Section) : Bool :=
  headingPath.length < s.heading_path.length &&
    s.heading_path.take headingPath.length = headingPath &&
    sec.heading_line < s.start_line

/-- The `for s in self.doc.sections ... break` search: the first entry of
the stored section list satisfying the predicate. -/
def find_first_subsection (doc : MarkdownDoc) (headingPath : List Str)
    (sec : Section) : Option Section :=
  doc.sections.find? (subsection_test headingPath sec)

/-- `content_end` as computed on lines 735-748.  The search runs only under
`if heading_path:` (Python truthiness), even when the section was resolved
via `sectionId`.  A found subsection has `start_line > heading_line ≥ 0`,
so Python's `if subsection_start` truthiness test coincides with the
`Option` match. -/
def content_end_of (doc : MarkdownDoc) (headingPath : Option (List Str))
    (keepSubsections : Bool) (sec : Section) : Nat :=
  if keepSubsections then
    if truthyList headingPath then
      match find_first_subsection doc (headingPath.getD []) sec with
      | some s => s.start_line - 1
      | none => sec.end_line
    else sec.end_line
  else sec.end_line

/-- `MarkdownEditor._apply_replace_section` (lines 683-778).  Note the
heading test of lines 755-757 inspects `new_lines[0]`, the FIRST line of
the split markdown, whether or not it is empty. -/
def apply_replace_section (doc : MarkdownDoc) (e : ReplaceSectionEdit)
    (st : EditorState) : Bool × EditorState :=
  match e.markdown with
  | none =>
    failD st { severity := "error", code := some ErrorCode.INVALID_OPERATION,
               message := "replace_section requires markdown field (not content)",
               source := some "editor" }
  | some markdown =>
    match resolve_section_ref doc e.sectionId e.headingPath with
    | .error d => failD st d
    | .ok sec =>
      let content_start := sec.heading_line
      let content_end := content_end_of doc e.headingPath e.keepSubsections sec
      let new_lines := splitLF markdown
      let has_heading : Bool :=
        match new_lines with
        | [] => false
        | h :: _ => leadsWith ['#'] (pyStrip h)
      if !has_heading then
        let newBuf :=
          st.buffer.take (sec.heading_line + 1) ++ new_lines ++
          st.buffer.drop (content_end + 1)
        (true, { st with buffer := newBuf })
      else
        let newBuf :=
          st.buffer.take content_start ++ new_lines ++
          st.buffer.drop (content_end + 1)
        (true, { st with buffer := newBuf })

/-- Fields of an `insert_after_heading` edit. -/
structure InsertAfterHeadingEdit where
  headingPath : Option (List Str) := none
  sectionId : Option String := none
  markdown : Option Str := none
  position : String := "afterHeading"
  ensureBlankLine : Bool := true
deriving Repr, DecidableEq

/-- `MarkdownEditor._apply_insert_after_heading` (lines 780-859). -/
def apply_insert_after_heading (doc : MarkdownDoc) (e : InsertAfterHeadingEdit)
    (st : EditorState) : Bool × EditorState :=
  match e.markdown with
  | none =>
    failD st { severity := "error", code := some ErrorCode.INVALID_OPERATION,
               message := "insert_after_heading requires markdown field (not content)",
               source := some "editor" }
  | some markdown =>
    match resolve_section_ref doc e.sectionId e.headingPath with
    | .error d => failD st d
    | .ok sec =>
      let insert_line? : Option Nat :=
        if e.position = "afterHeading" then some (sec.heading_line + 1)
        else if e.position = "start" then some (sec.heading_line + 1)
        else if e.position = "end" then some (sec.end_line + 1)
        else none
      match insert_line? with
      | none =>
        failD st { severity := "error", code := some ErrorCode.INVALID_OPERATION,
                   message := "Invalid position: " ++ e.position,
                   source := some "editor" }
      | some insert_line =>
        let base_lines := splitLF markdown
        let new_lines :=
          if e.ensureBlankLine && insert_line < st.buffer.length &&
             !(pyStrip (st.buffer.getD insert_line [])).isEmpty then
            base_lines ++ [[]]
          else base_lines
        let newBuf :=
          st.buffer.take insert_line ++ new_lines ++ st.buffer.drop insert_line
        (true, { st with buffer := newBuf })

/-- Fields of an `update_front_matter` edit (`set` renamed to
`setValues`).  YAML values are carried in serialized form since the YAML
library is external. -/
structure UpdateFrontMatterEdit where
  setValues : List (String × String) := []
  remove : List String := []
deriving Repr, DecidableEq

/-- Python ordered-dict upsert `fm[key] = value`. -/
def dict_set (fm : List (String × String)) (k v : String) :
    List (String × String) :=
  if fm.any (fun p => p.1 = k) then
    fm.map (fun p => if p.1 = k then (k, v) else p)
  else fm ++ [(k, v)]

/-- Python `fm.pop(key, None)`. -/
def dict_pop (fm : List (String × String)) (k : String) :
    List (String × String) :=
  fm.filter (fun p => p.1 ≠ k)

/-- Python `fm_text.rstrip('\n')`. -/
def rstripNl (l : Str) : Str := (l.reverse.dropWhile (· = '\n')).reverse

/-- `MarkdownEditor._apply_update_front_matter` (lines 861-907).  The YAML
serializer (`yaml.dump`) is the external parameter `yaml`; `none` models
`YAML_AVAILABLE = False`. -/
def apply_update_front_matter (yaml : Option (List (String × String) → Str))
    (doc : MarkdownDoc) (e : UpdateFrontMatterEdit) (st : EditorState) :
    Bool × EditorState :=
  match yaml with
  | none =>
    failD st { severity := "error", code := some ErrorCode.INVALID_OPERATION,
               message := "YAML library not available", source := some "editor" }
  | some dump =>
    let fm0 := doc.front_matter.getD []
    let fm1 := e.setValues.foldl (fun m kv => dict_set m kv.1 kv.2) fm0
    let fm2 := e.remove.foldl dict_pop fm1
    let fm_lines := splitLF (rstripNl (dump fm2))
    match doc.front_matter_lines with
    | some se =>
      let newBuf :=
        ["---".toList] ++ fm_lines ++ ["---".toList] ++ st.buffer.drop (se.2 + 1)
      (true, { st with buffer := newBuf })
    | none =>
      let newBuf :=
        ["---".toList] ++ fm_lines ++ ["---".toList, []] ++ st.buffer
      (true, { st with buffer := newBuf })

/-- The edit wire format as a closed sum (`edit.get('op')` dispatch).
`unknown` covers every other `op` value. -/
inductive Edit where
  | replace_range (e : ReplaceRangeEdit)
  | replace_match (e : ReplaceMatchEdit)
  | replace_section (e : ReplaceSectionEdit)
  | insert_after_heading (e : InsertAfterHeadingEdit)
  | update_front_matter (e : UpdateFrontMatterEdit)
  | unknown (op : String)
deriving Repr

/-- `MarkdownEditor.apply_edit` (lines 446-467). -/
def apply_edit (engine : RegexEngine) (yaml : Option (List (String × String) → Str))
    (doc : MarkdownDoc) (edit : Edit) (st : EditorState) : Bool × EditorState :=
  match edit with
  | .replace_range e => apply_replace_range e st
  | .replace_match e => apply_replace_match engine doc e st
  | .replace_section e => apply_replace_section doc e st
  | .insert_after_heading e => apply_insert_after_heading doc e st
  | .update_front_matter e => apply_update_front_matter yaml doc e st
  | .unknown op =>
    failD st { severity := "error", code := some ErrorCode.INVALID_OPERATION,
               message := "Unknown operation: " ++ op, source := some "editor" }

/-- `MarkdownEditor.get_content` (lines 909-912). -/
def get_content (doc : MarkdownDoc) (buffer : List Str) : Str :=
  joinSep (if doc.eol = "CRLF" then ['\r', '\n'] else ['\n']) buffer

/-! ### `md_apply` (lines 1027-1156) -/

/-- The `for i, edit in enumerate(edits)` loop of lines 1057-1081.  On
atomic failure the result carries the failing index (the `error` string
`"Edit i failed"`) and `editor.diagnostics`. -/
def apply_edits_loop (engine : RegexEngine)
    (yaml : Option (List (String × String) → Str)) (doc : MarkdownDoc)
    (atomic : Bool) :
    List Edit → Nat → Nat → EditorState →
    Except (Nat × List Diagnostic) (Nat × EditorState)
  | [], _, applied, st => .ok (applied, st)
  | e :: rest, i, applied, st =>
    match apply_edit engine yaml doc e st with
    | (true, st') => apply_edits_loop engine yaml doc atomic rest (i + 1) (applied + 1) st'
    | (false, st') =>
      if atomic then .error (i, st'.diagnostics)
      else apply_edits_loop engine yaml doc atomic rest (i + 1) applied st'

/-- The result record of `md_apply`.  `success` carries the final content
(the text that is hashed into `contentSha256` and, outside dry-run,
written to disk); the unified diff and the hex digests are external. -/
inductive ApplyResult where
  | preconditionFailed (expected actual : String)
  | conflictingEdits (editIndex : Nat) (diagnostics : List Diagnostic)
  | markdownBroken (err : String)
  | success (newContent : Str) (editsApplied : Nat) (dryRun : Bool)
      (matchList : List MatchRec) (diagnostics : List Diagnostic)
deriving Repr, DecidableEq

/-- Lines 1098-1100: append one eol sequence when `ensure_final_newline`
holds and the content does not end with `'\n'`. -/
def ensure_final (eol : String) (efn : Bool) (content : Str) : Str :=
  if efn && !(content.getLast? == some '\n') then
    content ++ (if eol = "LF" then ['\n'] else ['\r', '\n'])
  else content

/-- The tail of `md_apply` after formatting (lines 1098-1147): final
newline, result record, and the disk write (`none` when `dry_run`). -/
def md_finish (doc : MarkdownDoc) (dry_run efn : Bool) (edits_applied : Nat)
    (st : EditorState) (content : Str) : ApplyResult × Option Str :=
  let new_content := ensure_final doc.eol efn content
  (.success new_content edits_applied dry_run st.matchList st.diagnostics,
   if dry_run then none else some new_content)

/-- `md_apply` (lines 1027-1156) over an already loaded document.  The
second component is the disk write: `some bytes` when
`doc.file_path.write_bytes` runs, `none` when the file is left untouched.
`mdformat` is the external formatter (`none` = unavailable). -/
def md_apply (engine : RegexEngine)
    (yaml : Option (List (String × String) → Str)) (doc : MarkdownDoc)
    (base_sha256 : String) (edits : List Edit) (atomic : Bool := true)
    (dry_run : Bool := false) (format_mode : String := "none")
    (mdformat : Option (Str → Except String Str) := none)
    (ensure_final_newline : Bool := true) : ApplyResult × Option Str :=
  if doc.sha256 ≠ base_sha256 then
    (.preconditionFailed base_sha256 doc.sha256, none)
  else
    match apply_edits_loop engine yaml doc atomic edits 0 0 ⟨doc.lines, [], []⟩ with
    | .error ids => (.conflictingEdits ids.1 ids.2, none)
    | .ok ast =>
      let c0 := get_content doc ast.2.buffer
      match (if format_mode = "mdformat" then mdformat else none) with
      | some f =>
        match f c0 with
        | .error err =>
          if atomic then (.markdownBroken ("Formatting failed: " ++ err), none)
          else md_finish doc dry_run ensure_final_newline ast.1 ast.2 c0
        | .ok c1 => md_finish doc dry_run ensure_final_newline ast.1 ast.2 c1
      | none => md_finish doc dry_run ensure_final_newline ast.1 ast.2 c0

/-! ### C1: the SHA-256 precondition gate -/

/-- C1: when the loaded file's SHA-256 differs from `baseSha256`, `md_apply`
returns `ok=false` with `errorCode = PRECONDITION_FAILED`, no edit is
attempted (the result does not depend on `edits` at all), and no write is
performed, so the file on disk is byte-identical to its prior state. -/
theorem md_apply_hash_gate (engine : RegexEngine)
    (yaml : Option (List (String × String) → Str)) (doc : MarkdownDoc)
    (base_sha256 : String) (edits : List Edit) (atomic dry_run : Bool)
    (format_mode : String) (mdformat : Option (Str → Except String Str))
    (efn : Bool) (h : doc.sha256 ≠ base_sha256) :
    md_apply engine yaml doc base_sha256 edits atomic dry_run format_mode mdformat efn =
      (.preconditionFailed base_sha256 doc.sha256, none) := by
  simp [md_apply, h]

def c1_engine : RegexEngine := ⟨id, fun _ _ => .error "external"⟩

def c1_doc : MarkdownDoc :=
  ⟨"aa", "hi".toList, "LF", ["hi".toList], [], [], [], none, none⟩

/-- Witness for C1 at a concrete mismatching hash. -/
theorem md_apply_hash_gate_witness :
    ("aa" : String) ≠ "bb" ∧
    md_apply c1_engine none c1_doc "bb"
        [.unknown "zap"] true false "none" none true =
      (.preconditionFailed "bb" "aa", none) :=
  ⟨by decide,
   md_apply_hash_gate c1_engine none c1_doc "bb" [.unknown "zap"] true false
     "none" none true (by decide)⟩

/-! ### C3: `replace_range` position handling -/

/-- C3 (showing the code's actual behaviour): `_apply_replace_range` uses
the supplied positions directly as 0-based buffer indices — no 1-based to
0-based conversion — and performs no column validation.  On the 1-line
buffer `["hello"]`: the edit at start `(1,1)`, end `(1,3)` (which under the
documented 1-based contract addresses columns 1-2 of line 1) fails with
`OUT_OF_RANGE` because line index 1 is out of the 0-based range; while an
edit at line `0` with columns `50..60` — far outside `[0, len(line)]` —
succeeds, the columns being silently clamped by Python slicing. -/
theorem replace_range_positions_code :
    (apply_replace_range ⟨⟨⟨1, 1⟩, ⟨1, 3⟩⟩, "XY".toList, none⟩
        ⟨["hello".toList], [], []⟩ =
      (false, ⟨["hello".toList],
        [⟨"error", some "OUT_OF_RANGE", "Start line 1 out of range",
          some 1, none, some "editor"⟩], []⟩)) ∧
    (apply_replace_range ⟨⟨⟨0, 50⟩, ⟨0, 60⟩⟩, "XY".toList, none⟩
        ⟨["hello".toList], [], []⟩ =
      (true, ⟨["helloXY".toList], [], []⟩)) := by
  exact ⟨by decide, by decide⟩

/-! ### C7: fence validation -/

/-- C7 (counterexample): the fence validator keeps ONE shared stack — a
fence line whose character differs from the stack top opens a new fence
instead of closing its own kind — and it emits a single diagnostic however
many fences stay open.  On ```` ``` / ~~~ / ``` / ~~~ ```` an
independent-stacks reading closes both kinds (zero diagnostics expected),
yet the code reports 4 unclosed fences in one diagnostic; on
```` ``` / ~~~ ```` two fences stay open, yet one diagnostic (not two) is
produced. -/
theorem validate_fences_counterexample :
    (validate_fences ⟨"s", [], "LF",
        ["```".toList, "~~~".toList, "```".toList, "~~~".toList],
        [], [], [], none, none⟩ =
      [⟨"error", some "UNBALANCED_FENCE", "Unbalanced code fence (4 unclosed)",
        none, none, some "validator"⟩]) ∧
    (validate_fences ⟨"s", [], "LF", ["```".toList, "~~~".toList],
        [], [], [], none, none⟩ =
      [⟨"error", some "UNBALANCED_FENCE", "Unbalanced code fence (2 unclosed)",
        none, none, some "validator"⟩]) := by
  exact ⟨by decide, by decide⟩

/-- C7 (amended): the validator treats a line whose trimmed form begins
with three backticks or three tildes as closing the most recent open fence
only when the characters agree, and as opening a new fence otherwise, on
one shared stack; at end of file it emits at most one diagnostic — exactly
one, with code `UNBALANCED_FENCE` and the number of unclosed fences in its
message, when any fence is left open, and none otherwise. -/
theorem validate_fences_amended (doc : MarkdownDoc) :
    (validate_fences doc = [] ∧ doc.lines.foldl fence_step [] = []) ∨
    (validate_fences doc =
      [⟨"error", some "UNBALANCED_FENCE",
        "Unbalanced code fence (" ++
          toString (doc.lines.foldl fence_step []).length ++ " unclosed)",
        none, none, some "validator"⟩] ∧
      doc.lines.foldl fence_step [] ≠ []) := by
  unfold validate_fences
  by_cases h : (doc.lines.foldl fence_step []).isEmpty
  · left
    simp_all [List.isEmpty_iff]
  · right
    simp_all [List.isEmpty_iff]

/-! ### C8: regex compile failure -/

/-- C8 (showing the code's actual behaviour): when the pattern fails to
compile, `_apply_replace_match` fails with error code `INVALID_OPERATION`
— not `INVALID_REGEX`, although that code exists in the `ErrorCode` enum
precisely for this condition. -/
theorem replace_match_compile_error_code (engine : RegexEngine)
    (doc : MarkdownDoc) (e : ReplaceMatchEdit) (st : EditorState) (err : String)
    (h : engine.compile (if e.literal then engine.escape e.pattern else e.pattern)
          (flags_of e.flags) = .error err) :
    apply_replace_match engine doc e st =
      failD st ⟨"error", some ErrorCode.INVALID_OPERATION,
        "Invalid regex pattern: " ++ err, none, none, some "editor"⟩ ∧
    ErrorCode.INVALID_OPERATION ≠ ErrorCode.INVALID_REGEX := by
  refine ⟨?_, by decide⟩
  simp only [apply_replace_match]
  rw [h]

def c8_engine : RegexEngine :=
  ⟨id, fun _ _ => .error "missing ), unterminated subpattern"⟩

def c8_doc : MarkdownDoc :=
  ⟨"s", "x".toList, "LF", ["x".toList], [], [], [], none, none⟩

/-- Witness for C8 at the concrete failing input: a non-literal
`replace_match` edit whose pattern `"("` does not compile. -/
theorem replace_match_compile_error_code_witness :
    apply_replace_match c8_engine c8_doc
        ⟨"(", "y".toList, false, "", .all, none, .whole_document,
         "exclude", "exclude", "exclude"⟩ ⟨["x".toList], [], []⟩ =
      (false, ⟨["x".toList],
        [⟨"error", some "INVALID_OPERATION",
          "Invalid regex pattern: missing ), unterminated subpattern",
          none, none, some "editor"⟩], []⟩) := by
  rw [(replace_match_compile_error_code c8_engine c8_doc
    ⟨"(", "y".toList, false, "", .all, none, .whole_document,
     "exclude", "exclude", "exclude"⟩ ⟨["x".toList], [], []⟩
    "missing ), unterminated subpattern" rfl).1]
  decide

/-! ### C9: `content_end` under `keepSubsections` -/

theorem find?_prefix_none_cons {α} (p : α → Bool) (pre post : List α) (s : α)
    (hs : p s = true) (hpre : ∀ t ∈ pre, p t = false) :
    (pre ++ s :: post).find? p = some s := by
  induction pre with
  | nil => simp [List.find?_cons, hs]
  | cons a rest ih =>
    have ha := hpre a (by simp)
    rw [List.cons_append, List.find?_cons_of_neg _ (by simp [ha])]
    exact ih (fun t ht => hpre t (by simp [ht]))

def c9_secA : Section := ⟨["A".toList], ["a".toList], "idA", 1, 0, 3, 0⟩

def c9_secB : Section :=
  ⟨["A".toList, "B".toList], ["a".toList, "b".toList], "idB", 2, 2, 3, 2⟩

def c9_doc : MarkdownDoc :=
  ⟨"s", [], "LF", ["# A".toList, "x".toList, "## B".toList, "y".toList],
   [c9_secB, c9_secA], [], [], none, none⟩

/-- C9 (counterexample): a `replace_section` edit addressed by `sectionId`
alone resolves to section `A` of a document in which a subsection `B`
(heading line 2) exists, yet with `keepSubsections = true` the computed
`content_end` is `A`'s `end_line` 3, not `B.start_line - 1 = 1`: the
subsection search of lines 737-744 runs only under `if heading_path:`. -/
theorem content_end_sectionId_counterexample :
    resolve_section_ref c9_doc (some "idA") none = .ok c9_secA ∧
    subsection_test ["A".toList] c9_secA c9_secB = true ∧
    content_end_of c9_doc none true c9_secA = 3 ∧
    (3 : Nat) ≠ c9_secB.start_line - 1 := by
  refine ⟨by decide, by decide, by decide, by decide⟩

/-- C9 (amended): when the edit supplies a non-empty `headingPath` and
`keepSubsections = true`, `content_end` is one less than the `start_line`
of the first entry of the stored section list that is a strict descendant
of that path starting after the section's heading line; when the edit
supplies no `headingPath` (`sectionId` addressing), `content_end` is
always the section's `end_line`. -/
theorem content_end_amended :
    (∀ (doc : MarkdownDoc) (hp : List Str) (sec : Section)
        (pre post : List Section) (s : Section),
      hp ≠ [] → doc.sections = pre ++ s :: post →
      subsection_test hp sec s = true →
      (∀ t ∈ pre, subsection_test hp sec t = false) →
      content_end_of doc (some hp) true sec = s.start_line - 1) ∧
    (∀ (doc : MarkdownDoc) (ks : Bool) (sec : Section),
      content_end_of doc none ks sec = sec.end_line) := by
  constructor
  · intro doc hp sec pre post s hhp hsec hs hpre
    have htr : truthyList (some hp) = true := by
      cases hp with
      | nil => exact absurd rfl hhp
      | cons a l => simp [truthyList]
    unfold content_end_of find_first_subsection
    rw [hsec, htr]
    simp only [if_true, Option.getD_some]
    rw [find?_prefix_none_cons _ _ _ _ hs hpre]
  · intro doc ks sec
    cases ks <;> simp [content_end_of, truthyList]

/-- Witness for C9's amended statement on the concrete document. -/
theorem content_end_amended_witness :
    content_end_of c9_doc (some ["A".toList]) true c9_secA = 1 ∧
    content_end_of c9_doc none true c9_secA = 3 :=
  ⟨content_end_amended.1 c9_doc ["A".toList] c9_secA [] [c9_secA] c9_secB
     (by decide) rfl (by decide) (by simp),
   content_end_amended.2 c9_doc true c9_secA⟩

/-! ### C4: the heading-preservation rule of `replace_section` -/

def c4_sec : Section := ⟨["T".toList], ["t".toList], "s1", 1, 0, 2, 0⟩

def c4_doc : MarkdownDoc :=
  ⟨"s", [], "LF", ["# T".toList, "a".toList, "b".toList], [c4_sec],
   [], [], none, none⟩

def c4_st : EditorState := ⟨["# T".toList, "a".toList, "b".toList], [], []⟩

/-- C4 (counterexample): for `markdown = "\n# X"` the first NON-empty line
is `"# X"`, whose trimmed form begins with `#`, so the claim predicts the
heading line is replaced (buffer `["", "# X"]`).  The code instead
inspects only `new_lines[0]` — the empty first line — and preserves the
heading, producing `["# T", "", "# X"]`. -/
theorem replace_section_first_line_counterexample :
    apply_replace_section c4_doc ⟨none, some "s1", some "\n# X".toList, false⟩ c4_st =
      (true, ⟨["# T".toList, [], "# X".toList], [], []⟩) ∧
    leadsWith ['#'] (pyStrip
      (((splitLF "\n# X".toList).filter (fun l => !l.isEmpty)).headD [])) = true ∧
    (["# T".toList, [], "# X".toList] : List Str) ≠ [[], "# X".toList] := by
  refine ⟨by decide, by decide, by decide⟩

/-- C4 (amended): for a `replace_section` edit that resolves to a section,
the decision inspects the FIRST line of the split `markdown` (empty or
not): if its trimmed form begins with `#`, `markdown` replaces lines
`[heading_line, content_end]`; otherwise the original heading line is kept
and `markdown` replaces `[heading_line + 1, content_end]`. -/
theorem replace_section_heading_rule (doc : MarkdownDoc)
    (e : ReplaceSectionEdit) (st : EditorState) (markdown : Str) (sec : Section)
    (hm : e.markdown = some markdown)
    (hres : resolve_section_ref doc e.sectionId e.headingPath = .ok sec) :
    apply_replace_section doc e st =
      (true, ⟨(if leadsWith ['#'] (pyStrip ((splitLF markdown).headD [])) then
          st.buffer.take sec.heading_line ++ splitLF markdown ++
            st.buffer.drop (content_end_of doc e.headingPath e.keepSubsections sec + 1)
        else
          st.buffer.take (sec.heading_line + 1) ++ splitLF markdown ++
            st.buffer.drop (content_end_of doc e.headingPath e.keepSubsections sec + 1)),
        st.diagnostics, st.matchList⟩) := by
  simp only [apply_replace_section, hm, hres]
  rcases heq : splitLF markdown with _ | ⟨h0, t0⟩
  · exact absurd heq (splitLF_ne_nil markdown)
  · simp only [heq, List.headD_cons]
    by_cases hh : leadsWith ['#'] (pyStrip h0) <;> simp [hh]

/-- Witness for C4's amended statement: `markdown = "# X"` starts with a
heading, so the whole section `[0, 2]` is replaced. -/
theorem replace_section_heading_rule_witness :
    apply_replace_section c4_doc ⟨none, some "s1", some "# X".toList, false⟩ c4_st =
      (true, ⟨["# X".toList], [], []⟩) := by
  rw [replace_section_heading_rule c4_doc
    ⟨none, some "s1", some "# X".toList, false⟩ c4_st "# X".toList c4_sec rfl rfl]
  decide

/-! ### C5: empty edit list round-trips the content -/

/-- `md_apply` with an empty edit list and `dry_run = false` writes back
exactly the loaded content — the eol-detecting split of `load` and the
eol join of `get_content` are mutually inverse — except that one eol
sequence is appended when `ensure_final_newline` holds and the content
did not end with `'\n'`.  (Content-level half of C5; the byte-level
statement follows below.) -/
theorem md_apply_empty_edits_content (engine : RegexEngine)
    (yaml : Option (List (String × String) → Str)) (sha : String)
    (content : Str) (secs : List Section) (cbs : List CodeBlock)
    (tbls : List TableInfo) (fm : Option (List (String × String)))
    (fml : Option (Nat × Nat)) (atomic : Bool)
    (fmt : Option (Str → Except String Str)) (efn : Bool) :
    md_apply engine yaml (load sha content secs cbs tbls fm fml) sha []
        atomic false "none" fmt efn =
      (.success
        (if efn && !(content.getLast? == some '\n') then
          content ++ (if containsCRLF content then ['\r', '\n'] else ['\n'])
        else content) 0 false [] [],
       some (if efn && !(content.getLast? == some '\n') then
          content ++ (if containsCRLF content then ['\r', '\n'] else ['\n'])
        else content)) := by
  by_cases hc : containsCRLF content
  · simp [md_apply, load, hc, apply_edits_loop, get_content, md_finish,
      ensure_final, joinSep_splitCRLF]
  · simp [md_apply, load, hc, apply_edits_loop, get_content, md_finish,
      ensure_final, joinSep_splitLF]

/-! ### C10: empty match set is a silent no-op -/

/-- C10: a `replace_match` edit with the default `occurrence = "all"`, no
`expectedMatches`, and whole-document scope whose resolved match set is
empty succeeds and leaves the editor state exactly as it was: no
diagnostic, no reported match, no buffer change. -/
theorem replace_match_empty_noop (engine : RegexEngine) (doc : MarkdownDoc)
    (e : ReplaceMatchEdit) (st : EditorState)
    (regex : Str → List (Nat × Nat))
    (hcomp : engine.compile
        (if e.literal then engine.escape e.pattern else e.pattern)
        (flags_of e.flags) = .ok regex)
    (hocc : e.occurrence = .all)
    (hexp : e.expectedMatches = none)
    (hscope : e.scope = .whole_document)
    (hms : find_matches doc st.buffer regex e.codeBlocks e.tables 0
        ((st.buffer.length : Int) - 1) = []) :
    apply_replace_match engine doc e st = (true, st) := by
  simp only [apply_replace_match]
  rw [hcomp]
  simp only [hscope, match_scope_lines]
  simp only [hms, hexp, hocc, List.map_nil, List.append_nil, List.reverse_nil,
    apply_span_list, List.foldl_nil]

def c10_engine : RegexEngine := ⟨id, fun _ _ => .ok (fun _ => [])⟩

def c10_doc : MarkdownDoc :=
  ⟨"s", "abc".toList, "LF", ["abc".toList], [], [], [], none, none⟩

def c10_st : EditorState := ⟨["abc".toList], [], []⟩

/-- Witness for C10: a pattern with no occurrence anywhere in the buffer. -/
theorem replace_match_empty_noop_witness :
    apply_replace_match c10_engine c10_doc
      ⟨"zzz", "y".toList, true, "", .all, none, .whole_document,
       "exclude", "exclude", "exclude"⟩ c10_st = (true, c10_st) :=
  replace_match_empty_noop c10_engine c10_doc _ c10_st (fun _ => [])
    rfl rfl rfl rfl (by decide)

/-! ### C6: reverse-order application of `occurrence = "all"` replacements

A line with a disjoint, in-order match set is presented as an interleaving
`weave segs mats` of inter-match segments with matched substrings; the
spans `finditer` reports for the `mats` of such a decomposition are
`spansOf 0 segs mats`.  The match-collection loop visits each scanned line
once, so the reversed replacement loop decomposes into independent
per-line back-to-front folds over the original lines of the buffer. -/

/-- `weave [s0, s1, …, sk] [m1, …, mk] = s0 ++ m1 ++ s1 ++ … ++ mk ++ sk`. -/
def weave : List Str → List Str → Str
  | s :: ss, m :: ms => s ++ m ++ weave ss ms
  | s :: _, [] => s
  | [], _ => []

/-- The `(match.start(), match.end())` spans of the `mats` of a
decomposition, offset by `off`. -/
def spansOf (off : Nat) : List Str → List Str → List (Nat × Nat)
  | s :: ss, m :: ms =>
    (off + s.length, off + s.length + m.length) ::
      spansOf (off + s.length + m.length) ss ms
  | _, _ => []

/-- Replacing the spans back-to-front (`foldr` = first span last, exactly
the order of the reversed loop) rewrites every matched substring to `repl`
and nothing else. -/
theorem foldr_replace_spans (repl : Str) (mats : List Str) :
    ∀ (segs : List Str) (pre : Str), segs.length = mats.length + 1 →
    List.foldr (fun (sp : Nat × Nat) (acc : Str) =>
        acc.take sp.1 ++ repl ++ acc.drop sp.2)
      (pre ++ weave segs mats) (spansOf pre.length segs mats) =
    pre ++ weave segs (mats.map (fun _ => repl)) := by
  induction mats with
  | nil =>
    intro segs pre hlen
    cases segs with
    | nil => simp at hlen
    | cons s ss => simp [spansOf, weave]
  | cons m msr ih =>
    intro segs pre hlen
    cases segs with
    | nil => simp at hlen
    | cons s ssr =>
      have hlen' : ssr.length = msr.length + 1 := by simpa using hlen
      have hw : pre ++ weave (s :: ssr) (m :: msr) =
          (pre ++ s ++ m) ++ weave ssr msr := by
        simp [weave, List.append_assoc]
      have hsp : spansOf pre.length (s :: ssr) (m :: msr) =
          (pre.length + s.length, pre.length + s.length + m.length) ::
            spansOf ((pre ++ s ++ m).length) ssr msr := by
        simp [spansOf, List.length_append, Nat.add_assoc]
      rw [hsp, List.foldr_cons, hw, ih ssr (pre ++ s ++ m) hlen']
      have hassoc : (pre ++ s ++ m) ++ weave ssr (msr.map (fun _ => repl)) =
          (pre ++ s) ++ (m ++ weave ssr (msr.map (fun _ => repl))) := by
        simp [List.append_assoc]
      have h1 : ((pre ++ s ++ m) ++ weave ssr (msr.map (fun _ => repl))).take
          (pre.length + s.length) = pre ++ s := by
        rw [hassoc]
        exact List.take_left' (by simp)
      have h2 : ((pre ++ s ++ m) ++ weave ssr (msr.map (fun _ => repl))).drop
          (pre.length + s.length + m.length) =
          weave ssr (msr.map (fun _ => repl)) := by
        exact List.drop_left' (by simp [Nat.add_assoc])
      rw [h1, h2]
      simp [weave, List.append_assoc]

/-- Simultaneous substitution of a span list into one line, realized as the
back-to-front fold the reversed loop performs on that line. -/
def subst_line (repl : Str) (sps : List (Nat × Nat)) (line : Str) : Str :=
  List.foldr (fun (sp : Nat × Nat) (acc : Str) =>
    acc.take sp.1 ++ repl ++ acc.drop sp.2) line sps

/-- On a line decomposed as `weave segs mats` with `finditer` spans
`spansOf 0 segs mats`, the back-to-front substitution rewrites every
matched substring to `repl` and nothing else. -/
theorem subst_line_weave (repl : Str) (segs mats : List Str)
    (hlen : segs.length = mats.length + 1) :
    subst_line repl (spansOf 0 segs mats) (weave segs mats) =
      weave segs (mats.map (fun _ => repl)) := by
  have h := foldr_replace_spans repl mats segs [] hlen
  simpa [subst_line] using h

theorem getD_set_eq_of_lt (buf : List Str) (n : Nat) (v : Str)
    (h : n < buf.length) : (buf.set n v).getD n [] = v := by
  induction buf generalizing n with
  | nil => simp at h
  | cons a t ih =>
    cases n with
    | zero => rfl
    | succ m => exact ih m (by simpa using h)

theorem getD_set_ne (buf : List Str) (n m : Nat) (v : Str) (h : n ≠ m) :
    (buf.set n v).getD m [] = buf.getD m [] := by
  induction buf generalizing n m with
  | nil => rfl
  | cons a t ih =>
    cases n with
    | zero =>
      cases m with
      | zero => exact absurd rfl h
      | succ k => rfl
    | succ n' =>
      cases m with
      | zero => rfl
      | succ k => exact ih n' k (by omega)

theorem set_self_getD (buf : List Str) (n : Nat) (h : n < buf.length) :
    buf.set n (buf.getD n []) = buf := by
  induction buf generalizing n with
  | nil => simp at h
  | cons a t ih =>
    cases n with
    | zero => rfl
    | succ m =>
      show a :: t.set m (t.getD m []) = a :: t
      rw [ih m (by simpa using h)]

theorem set_of_le (buf : List Str) (n : Nat) (v : Str)
    (h : buf.length ≤ n) : buf.set n v = buf := by
  induction buf generalizing n with
  | nil => rfl
  | cons a t ih =>
    cases n with
    | zero => simp at h
    | succ m => simp [List.set, ih m (by simpa using h)]

/-- The loop entries of a single line `n` accumulate as a left fold over
that line; the buffer is only touched at index `n`. -/
theorem apply_span_list_line (repl : Str) (n : Nat) :
    ∀ (sps : List (Nat × Nat)) (buf : List Str),
      apply_span_list repl (sps.map (fun sp => (n, sp))) buf =
      buf.set n (sps.foldl (fun l sp => l.take sp.1 ++ repl ++ l.drop sp.2)
        (buf.getD n [])) := by
  intro sps
  induction sps with
  | nil =>
    intro buf
    rcases Nat.lt_or_ge n buf.length with h | h
    · exact (set_self_getD buf n h).symm
    · simp [apply_span_list, set_of_le buf n _ h]
  | cons sp rest ih =>
    intro buf
    have hstep : apply_span_list repl (((sp :: rest).map (fun sp => (n, sp)))) buf =
        apply_span_list repl (rest.map (fun sp => (n, sp)))
          (buf.set n ((buf.getD n []).take sp.1 ++ repl ++ (buf.getD n []).drop sp.2)) := rfl
    rw [hstep, ih, List.foldl_cons]
    rcases Nat.lt_or_ge n buf.length with h | h
    · rw [getD_set_eq_of_lt buf n _ h, List.set_set]
    · have e1 : buf.set n ((buf.getD n []).take sp.1 ++ repl ++
          (buf.getD n []).drop sp.2) = buf := set_of_le buf n _ h
      rw [e1, set_of_le buf n _ h, set_of_le buf n _ h]

/-- The reversed entries of a single line are the back-to-front fold. -/
theorem apply_span_list_rev_line (repl : Str) (n : Nat) (sps : List (Nat × Nat))
    (buf : List Str) :
    apply_span_list repl ((sps.map (fun sp => (n, sp))).reverse) buf =
      buf.set n (subst_line repl sps (buf.getD n [])) := by
  rw [← List.map_reverse, apply_span_list_line]
  congr 1
  rw [List.foldl_reverse]
  rfl

theorem foldl_set_getD_notmem (w : Nat → Str) (n : Nat) :
    ∀ (lns : List Nat) (buf : List Str), n ∉ lns →
      (lns.foldl (fun b m => b.set m (w m)) buf).getD n [] = buf.getD n [] := by
  intro lns
  induction lns with
  | nil => intro buf _; rfl
  | cons m rest ih =>
    intro buf hn
    simp only [List.mem_cons, not_or] at hn
    rw [List.foldl_cons, ih _ hn.2, getD_set_ne buf m n _ (Ne.symm hn.1)]

theorem foldl_set_comm (w : Nat → Str) (n : Nat) (v : Str) :
    ∀ (lns : List Nat) (buf : List Str), n ∉ lns →
      lns.foldl (fun b m => b.set m (w m)) (buf.set n v) =
      (lns.foldl (fun b m => b.set m (w m)) buf).set n v := by
  intro lns
  induction lns with
  | nil => intro buf _; rfl
  | cons m rest ih =>
    intro buf hn
    simp only [List.mem_cons, not_or] at hn
    simp only [List.foldl_cons]
    rw [List.set_comm _ _ _ hn.1, ih _ hn.2]

theorem foldl_set_length (w : Nat → Str) :
    ∀ (lns : List Nat) (buf : List Str),
      (lns.foldl (fun b m => b.set m (w m)) buf).length = buf.length := by
  intro lns
  induction lns with
  | nil => intro buf; rfl
  | cons m rest ih =>
    intro buf
    rw [List.foldl_cons, ih, List.length_set]

theorem foldl_set_getD_mem (w : Nat → Str) (n : Nat) :
    ∀ (lns : List Nat) (buf : List Str), lns.Nodup → n ∈ lns →
      n < buf.length →
      (lns.foldl (fun b m => b.set m (w m)) buf).getD n [] = w n := by
  intro lns
  induction lns with
  | nil => intro buf _ hn; simp at hn
  | cons m rest ih =>
    intro buf hnd hn hlt
    rw [List.nodup_cons] at hnd
    rcases List.mem_cons.1 hn with rfl | hmem
    · rw [List.foldl_cons, foldl_set_getD_notmem w n rest _ hnd.1,
        getD_set_eq_of_lt buf n _ hlt]
    · rw [List.foldl_cons]
      exact ih _ hnd.2 hmem (by rw [List.length_set]; exact hlt)

/-- Processing the reversed concatenation of per-line span groups (distinct
lines) sets each listed line to its simultaneous substitution, reading
every line from the original buffer: the per-line rewrites are independent
and nothing leaks across lines. -/
theorem apply_span_list_groups (repl : Str) (F : Nat → List (Nat × Nat)) :
    ∀ (lns : List Nat) (buf : List Str), lns.Nodup →
      apply_span_list repl
        ((lns.flatMap (fun n => (F n).map (fun sp => (n, sp)))).reverse) buf =
      lns.foldl (fun b n => b.set n (subst_line repl (F n) (buf.getD n []))) buf := by
  intro lns
  induction lns with
  | nil => intro buf _; rfl
  | cons n rest ih =>
    intro buf hnd
    rw [List.nodup_cons] at hnd
    rw [List.flatMap_cons, List.reverse_append]
    have hsplit : apply_span_list repl
        ((rest.flatMap (fun m => (F m).map (fun sp => (m, sp)))).reverse ++
          ((F n).map (fun sp => (n, sp))).reverse) buf =
        apply_span_list repl (((F n).map (fun sp => (n, sp))).reverse)
          (apply_span_list repl
            ((rest.flatMap (fun m => (F m).map (fun sp => (m, sp)))).reverse) buf) := by
      simp [apply_span_list, List.foldl_append]
    rw [hsplit, ih buf hnd.2, apply_span_list_rev_line,
      foldl_set_getD_notmem _ n rest buf hnd.1, List.foldl_cons]
    rw [foldl_set_comm _ n _ rest buf hnd.1]

/-- The line numbers the match-collection loop actually scans: the scope's
range with code-block and table lines removed under the `exclude`
policies. -/
def scan_lines (doc : MarkdownDoc) (cb tb : String) (sl el : Int) : List Nat :=
  ((intRange sl (el + 1)).map Int.toNat).filter (fun n =>
    !(cb = "exclude" && is_in_code_block doc n) &&
    !(tb = "exclude" && is_in_table doc n))

theorem flatMap_skip_filter {α : Type} (c1 c2 : Nat → Bool) (g : Nat → List α) :
    ∀ l : List Int,
      l.flatMap (fun ln =>
        if c1 ln.toNat then [] else if c2 ln.toNat then [] else g ln.toNat) =
      ((l.map Int.toNat).filter (fun n => !c1 n && !c2 n)).flatMap g := by
  intro l
  induction l with
  | nil => rfl
  | cons a t ih =>
    by_cases h1 : c1 a.toNat <;> by_cases h2 : c2 a.toNat <;>
      simp [h1, h2, ih]

/-- `find_matches` is the concatenation, over exactly the scanned lines,
of that line's `finditer` spans tagged with the line number. -/
theorem find_matches_eq (doc : MarkdownDoc) (buffer : List Str)
    (regex : Str → List (Nat × Nat)) (cb tb : String) (sl el : Int) :
    find_matches doc buffer regex cb tb sl el =
      (scan_lines doc cb tb sl el).flatMap (fun n =>
        (regex (buffer.getD n [])).map (fun sp => (n, sp))) := by
  unfold find_matches scan_lines
  exact flatMap_skip_filter
    (fun n => cb = "exclude" && is_in_code_block doc n)
    (fun n => tb = "exclude" && is_in_table doc n)
    (fun n => (regex (buffer.getD n [])).map (fun sp => (n, sp)))
    (intRange sl (el + 1))

theorem intRange_map_toNat_nodup (a b : Int) (ha : 0 ≤ a) :
    ((intRange a b).map Int.toNat).Nodup := by
  have h : (intRange a b).map Int.toNat =
      (List.range (b - a).toNat).map (fun k => a.toNat + k) := by
    unfold intRange
    simp only [bind_pure_comp, List.map_eq_map, List.map_map]
    apply List.map_congr_left
    intro k hk
    simp only [Function.comp]
    omega
  rw [h]
  exact (List.nodup_range _).map (fun x y hxy => by omega)

theorem scan_lines_nodup (doc : MarkdownDoc) (cb tb : String) (sl el : Int)
    (h : 0 ≤ sl) : (scan_lines doc cb tb sl el).Nodup := by
  unfold scan_lines
  exact List.Nodup.filter _ (intRange_map_toNat_nodup sl (el + 1) h)

theorem match_scope_lines_start_nonneg (doc : MarkdownDoc) (buffer : List Str)
    (scope : ScopeVal) (sl el : Int)
    (h : match_scope_lines doc buffer scope = .ok (sl, el)) : 0 ≤ sl := by
  cases scope with
  | whole_document =>
    simp only [match_scope_lines, Except.ok.injEq, Prod.mk.injEq] at h
    omega
  | sectionScope hp incl =>
    simp only [match_scope_lines] at h
    cases hsec : get_section_by_path doc hp incl with
    | mk o ec =>
      rw [hsec] at h
      cases o with
      | none => simp at h
      | some sec =>
        simp only [Except.ok.injEq, Prod.mk.injEq] at h
        rw [← h.1]
        exact Int.natCast_nonneg _
  | unknown k => simp [match_scope_lines] at h

/-- C6: every `occurrence = "all"` `replace_match` edit that succeeds (the
pattern compiles, the scope resolves to `(sl, el)`, and `expectedMatches`
is absent or equal to the match count): where each scanned line `n` — the
scope's lines minus the excluded code-block/table lines — decomposes as
`weave (segs n) (mats n)` with `finditer` spans `spansOf 0 (segs n) (mats n)`,
the operation reports every original span (in document order, 1-based,
text read from the pre-edit buffer), appends no diagnostics, and rewrites
the buffer so that every scanned line becomes
`weave (segs n) (map (const replacement) (mats n))` — every original match
location holds exactly the replacement with the inter-match segments
untouched, each line substituted from its ORIGINAL content (the reverse
document order of the loop) — while every line outside the scanned set is
unchanged and the line count is preserved. -/
theorem replace_match_all_reverse (engine : RegexEngine) (doc : MarkdownDoc)
    (e : ReplaceMatchEdit) (st : EditorState)
    (regex : Str → List (Nat × Nat)) (sl el : Int) (segs mats : Nat → List Str)
    (hocc : e.occurrence = .all)
    (hcomp : engine.compile (if e.literal then engine.escape e.pattern else e.pattern)
        (flags_of e.flags) = .ok regex)
    (hscope : match_scope_lines doc st.buffer e.scope = .ok (sl, el))
    (hlen : ∀ n, (segs n).length = (mats n).length + 1)
    (hdec : ∀ n ∈ scan_lines doc e.codeBlocks e.tables sl el,
      st.buffer.getD n [] = weave (segs n) (mats n))
    (hregex : ∀ n ∈ scan_lines doc e.codeBlocks e.tables sl el,
      regex (st.buffer.getD n []) = spansOf 0 (segs n) (mats n))
    (hexp : e.expectedMatches = none ∨
      e.expectedMatches =
        some ((find_matches doc st.buffer regex e.codeBlocks e.tables sl el).length : Int)) :
    (apply_replace_match engine doc e st).1 = true ∧
    (apply_replace_match engine doc e st).2.diagnostics = st.diagnostics ∧
    (apply_replace_match engine doc e st).2.matchList =
      st.matchList ++
        (find_matches doc st.buffer regex e.codeBlocks e.tables sl el).map
          (mk_match_rec st.buffer) ∧
    (apply_replace_match engine doc e st).2.buffer.length = st.buffer.length ∧
    (∀ n ∈ scan_lines doc e.codeBlocks e.tables sl el, n < st.buffer.length →
      (apply_replace_match engine doc e st).2.buffer.getD n [] =
        weave (segs n) ((mats n).map (fun _ => e.replacement))) ∧
    (∀ n, n ∉ scan_lines doc e.codeBlocks e.tables sl el →
      (apply_replace_match engine doc e st).2.buffer.getD n [] =
        st.buffer.getD n []) := by
  have happly : apply_replace_match engine doc e st =
      (true,
        ⟨apply_span_list e.replacement
            (find_matches doc st.buffer regex e.codeBlocks e.tables sl el).reverse
            st.buffer,
         st.diagnostics,
         st.matchList ++
           (find_matches doc st.buffer regex e.codeBlocks e.tables sl el).map
             (mk_match_rec st.buffer)⟩) := by
    rcases hexp with hx | hx
    · simp [apply_replace_match, hcomp, hscope, hx, hocc]
    · simp [apply_replace_match, hcomp, hscope, hx, hocc]
  have hb2 : (apply_replace_match engine doc e st).2.buffer =
      apply_span_list e.replacement
        (find_matches doc st.buffer regex e.codeBlocks e.tables sl el).reverse
        st.buffer := by
    rw [happly]
  have hd2 : (apply_replace_match engine doc e st).2.diagnostics =
      st.diagnostics := by
    rw [happly]
  have hm2 : (apply_replace_match engine doc e st).2.matchList =
      st.matchList ++
        (find_matches doc st.buffer regex e.codeBlocks e.tables sl el).map
          (mk_match_rec st.buffer) := by
    rw [happly]
  have h12 : (apply_replace_match engine doc e st).1 = true := by
    rw [happly]
  have hnd : (scan_lines doc e.codeBlocks e.tables sl el).Nodup :=
    scan_lines_nodup doc e.codeBlocks e.tables sl el
      (match_scope_lines_start_nonneg doc st.buffer e.scope sl el hscope)
  have hbuf : apply_span_list e.replacement
      (find_matches doc st.buffer regex e.codeBlocks e.tables sl el).reverse
      st.buffer =
      (scan_lines doc e.codeBlocks e.tables sl el).foldl
        (fun b n => b.set n (subst_line e.replacement
          (regex (st.buffer.getD n [])) (st.buffer.getD n []))) st.buffer := by
    rw [find_matches_eq doc st.buffer regex e.codeBlocks e.tables sl el]
    exact apply_span_list_groups e.replacement
      (fun n => regex (st.buffer.getD n []))
      (scan_lines doc e.codeBlocks e.tables sl el) st.buffer hnd
  refine ⟨h12, hd2, hm2, ?_, ?_, ?_⟩
  · rw [hb2, hbuf]
    exact foldl_set_length _ (scan_lines doc e.codeBlocks e.tables sl el) st.buffer
  · intro n hn hlt
    rw [hb2, hbuf,
      foldl_set_getD_mem
        (fun m => subst_line e.replacement
          (regex (st.buffer.getD m [])) (st.buffer.getD m [])) n
        (scan_lines doc e.codeBlocks e.tables sl el) st.buffer hnd hn hlt,
      hregex n hn, hdec n hn]
    exact subst_line_weave e.replacement (segs n) (mats n) (hlen n)
  · intro n hn
    rw [hb2, hbuf,
      foldl_set_getD_notmem
        (fun m => subst_line e.replacement
          (regex (st.buffer.getD m [])) (st.buffer.getD m [])) n
        (scan_lines doc e.codeBlocks e.tables sl el) st.buffer hn]

def c6_engine : RegexEngine := ⟨id, fun _ _ => .ok (fun _ => [(0, 3)])⟩

def c6_buf : List Str :=
  ["foo".toList, "x".toList, "foo".toList, "y".toList, "foo".toList]

def c6_doc : MarkdownDoc :=
  ⟨"s", [], "LF", c6_buf, [], [⟨1, 4, [], none⟩], [], none, none⟩

def c6_st : EditorState := ⟨c6_buf, [], []⟩

def c6_edit : ReplaceMatchEdit :=
  ⟨"foo", "rebar".toList, true, "", .all, none, .whole_document,
   "exclude", "exclude", "exclude"⟩

/-- Witness for C6 in the shape of spec example S4: `foo` matches on
lines 0 and 4 (0-based) of a five-line buffer, the `foo` on line 2 sits
inside a code block and is excluded; both matched lines are rewritten to
`rebar`, the code-block line is untouched, and the match list reports
lines 1 and 5 (1-based) in document order. -/
theorem replace_match_all_reverse_witness :
    (apply_replace_match c6_engine c6_doc c6_edit c6_st).1 = true ∧
    (apply_replace_match c6_engine c6_doc c6_edit c6_st).2 =
      ⟨["rebar".toList, "x".toList, "foo".toList, "y".toList, "rebar".toList],
       [],
       [⟨1, 1, "foo".toList, (1, 1), (1, 4)⟩,
        ⟨5, 1, "foo".toList, (5, 1), (5, 4)⟩]⟩ := by
  refine ⟨?_, by decide⟩
  exact (replace_match_all_reverse c6_engine c6_doc c6_edit c6_st
    (fun _ => [(0, 3)]) 0 4 (fun _ => [[], []]) (fun _ => ["foo".toList])
    rfl rfl (by decide) (fun _ => rfl) (by decide) (by decide) (Or.inl rfl)).1

/-! ### C2: atomic all-or-nothing batching -/

/-- Every operation either succeeds leaving `diagnostics` untouched, or
fails appending exactly one diagnostic (every failure path of every
operation is one `failD`). -/
theorem apply_edit_diagnostics (engine : RegexEngine)
    (yaml : Option (List (String × String) → Str)) (doc : MarkdownDoc)
    (edit : Edit) (st : EditorState) :
    ((apply_edit engine yaml doc edit st).1 = true ∧
     (apply_edit engine yaml doc edit st).2.diagnostics = st.diagnostics) ∨
    (∃ d, (apply_edit engine yaml doc edit st).1 = false ∧
     (apply_edit engine yaml doc edit st).2.diagnostics = st.diagnostics ++ [d]) := by
  cases edit with
  | replace_range e =>
    simp only [apply_edit, apply_replace_range, failD]
    repeat' split
    all_goals first
      | exact Or.inl ⟨rfl, rfl⟩
      | exact Or.inl ⟨trivial, rfl⟩
      | exact Or.inr ⟨_, rfl, rfl⟩
  | replace_match e =>
    simp only [apply_edit, apply_replace_match, failD]
    repeat' split
    all_goals first
      | exact Or.inl ⟨rfl, rfl⟩
      | exact Or.inl ⟨trivial, rfl⟩
      | exact Or.inr ⟨_, rfl, rfl⟩
  | replace_section e =>
    simp only [apply_edit, apply_replace_section, failD]
    repeat' split
    all_goals first
      | exact Or.inl ⟨rfl, rfl⟩
      | exact Or.inl ⟨trivial, rfl⟩
      | exact Or.inr ⟨_, rfl, rfl⟩
  | insert_after_heading e =>
    simp only [apply_edit, apply_insert_after_heading, failD]
    repeat' split
    all_goals first
      | exact Or.inl ⟨rfl, rfl⟩
      | exact Or.inl ⟨trivial, rfl⟩
      | exact Or.inr ⟨_, rfl, rfl⟩
  | update_front_matter e =>
    simp only [apply_edit, apply_update_front_matter, failD]
    repeat' split
    all_goals first
      | exact Or.inl ⟨rfl, rfl⟩
      | exact Or.inl ⟨trivial, rfl⟩
      | exact Or.inr ⟨_, rfl, rfl⟩
  | unknown op =>
    simp only [apply_edit, failD]
    exact Or.inr ⟨_, trivial, rfl⟩

/-- In atomic mode the loop either applies every edit (count
`applied + edits.length`, diagnostics still empty) or stops at the first
failure with exactly that edit's single diagnostic. -/
theorem apply_edits_loop_atomic (engine : RegexEngine)
    (yaml : Option (List (String × String) → Str)) (doc : MarkdownDoc) :
    ∀ (edits : List Edit) (i applied : Nat) (st : EditorState),
      st.diagnostics = [] →
      (∃ st', apply_edits_loop engine yaml doc true edits i applied st =
          .ok (applied + edits.length, st') ∧ st'.diagnostics = []) ∨
      (∃ j d, apply_edits_loop engine yaml doc true edits i applied st =
          .error (j, [d])) := by
  intro edits
  induction edits with
  | nil =>
    intro i applied st hd
    left
    refine ⟨st, ?_, hd⟩
    simp [apply_edits_loop]
  | cons e rest ih =>
    intro i applied st hd
    rcases happ : apply_edit engine yaml doc e st with ⟨ok, st1⟩
    rcases apply_edit_diagnostics engine yaml doc e st with ⟨h1, h2⟩ | ⟨d, h1, h2⟩ <;>
      rw [happ] at h1 h2 <;> simp only at h1 h2 <;> subst h1
    · have hd1 : st1.diagnostics = [] := h2.trans hd
      have hstep : apply_edits_loop engine yaml doc true (e :: rest) i applied st =
          apply_edits_loop engine yaml doc true rest (i + 1) (applied + 1) st1 := by
        rw [apply_edits_loop, happ]
      rcases ih (i + 1) (applied + 1) st1 hd1 with ⟨st2, heq, hd2⟩ | ⟨j, d, heq⟩
      · left
        refine ⟨st2, ?_, hd2⟩
        rw [hstep, heq]
        have harith : applied + 1 + rest.length = applied + (rest.length + 1) := by omega
        rw [harith]
        simp [List.length_cons]
      · right
        exact ⟨j, d, by rw [hstep, heq]⟩
    · right
      refine ⟨i, d, ?_⟩
      have hstep : apply_edits_loop engine yaml doc true (e :: rest) i applied st =
          Except.error (i, st1.diagnostics) := by
        rw [apply_edits_loop, happ]
        simp
      rw [hstep, h2, hd]
      simp

/-- C2: with `atomic = true` (and the default `format_mode = "none"`),
either every edit succeeds — the result is `ok = true` with
`editsApplied = edits.length`, an empty diagnostics list, and the final
content written outside dry-run — or the first failing edit makes
`md_apply` return `ok = false` with `errorCode = CONFLICTING_EDITS`
wrapping exactly that edit's diagnostic, and nothing is written: the file
on disk is unchanged. -/
theorem md_apply_atomic_all_or_nothing (engine : RegexEngine)
    (yaml : Option (List (String × String) → Str)) (doc : MarkdownDoc)
    (edits : List Edit) (dry_run : Bool)
    (fmt : Option (Str → Except String Str)) (efn : Bool) :
    (∃ newContent ms,
      md_apply engine yaml doc doc.sha256 edits true dry_run "none" fmt efn =
        (.success newContent edits.length dry_run ms [],
         if dry_run then none else some newContent)) ∨
    (∃ i d,
      md_apply engine yaml doc doc.sha256 edits true dry_run "none" fmt efn =
        (.conflictingEdits i [d], none)) := by
  rcases apply_edits_loop_atomic engine yaml doc edits 0 0 ⟨doc.lines, [], []⟩ rfl
    with ⟨st', heq, hd⟩ | ⟨j, d, heq⟩
  · left
    refine ⟨ensure_final doc.eol efn (get_content doc st'.buffer), st'.matchList, ?_⟩
    simp only [md_apply, ne_eq, not_true_eq_false, if_false]
    rw [heq]
    simp [md_finish, hd]
  · right
    refine ⟨j, d, ?_⟩
    simp only [md_apply, ne_eq, not_true_eq_false, if_false]
    rw [heq]
/-! ### Byte-level layer: the loader's decode (lines 209-222) and the
re-encode of line 1113.  Bytes are `Nat`s below 256.  The Python codecs
(`utf-8` strict, `utf-8-sig`, `latin-1`) are modelled directly:
`utf8DecodeOne` consumes one code point the way Python's strict decoder
does (rejecting bad lead bytes, truncated or stray continuation bytes,
overlong forms, surrogates and out-of-range values), and the round-trip
theorems below show that re-encoding with the recorded encoding restores
the original bytes, BOM included. -/

theorem toNat_ofNat_valid (n : Nat) (h : n.isValidChar) :
    (Char.ofNat n).toNat = n := by
  simp only [Char.ofNat, h, dif_pos, Char.ofNatAux, Char.toNat, UInt32.toNat]
  rfl

def utf8EncodeChar (c : Char) : List Nat :=
  let n := c.toNat
  if n < 0x80 then [n]
  else if n < 0x800 then [0xC0 + n / 0x40, 0x80 + n % 0x40]
  else if n < 0x10000 then
    [0xE0 + n / 0x1000, 0x80 + n / 0x40 % 0x40, 0x80 + n % 0x40]
  else
    [0xF0 + n / 0x40000, 0x80 + n / 0x1000 % 0x40, 0x80 + n / 0x40 % 0x40,
     0x80 + n % 0x40]

def utf8Encode (s : Str) : List Nat := s.flatMap utf8EncodeChar

def utf8DecodeOne (b : Nat) (rest : List Nat) : Option (Nat × List Nat) :=
  if b < 0x80 then some (b, rest)
  else if b < 0xC2 then none
  else if b < 0xE0 then
    match rest with
    | b1 :: rest2 =>
      if 0x80 ≤ b1 ∧ b1 < 0xC0 then
        some ((b - 0xC0) * 0x40 + (b1 - 0x80), rest2)
      else none
    | [] => none
  else if b < 0xF0 then
    match rest with
    | b1 :: b2 :: rest3 =>
      if (0x80 ≤ b1 ∧ b1 < 0xC0) ∧ (0x80 ≤ b2 ∧ b2 < 0xC0) then
        if 0x800 ≤ (b - 0xE0) * 0x1000 + (b1 - 0x80) * 0x40 + (b2 - 0x80) ∧
           ¬(0xD800 ≤ (b - 0xE0) * 0x1000 + (b1 - 0x80) * 0x40 + (b2 - 0x80) ∧
             (b - 0xE0) * 0x1000 + (b1 - 0x80) * 0x40 + (b2 - 0x80) < 0xE000) then
          some ((b - 0xE0) * 0x1000 + (b1 - 0x80) * 0x40 + (b2 - 0x80), rest3)
        else none
      else none
    | _ => none
  else if b < 0xF5 then
    match rest with
    | b1 :: b2 :: b3 :: rest4 =>
      if (0x80 ≤ b1 ∧ b1 < 0xC0) ∧ (0x80 ≤ b2 ∧ b2 < 0xC0) ∧
         (0x80 ≤ b3 ∧ b3 < 0xC0) then
        if 0x10000 ≤ (b - 0xF0) * 0x40000 + (b1 - 0x80) * 0x1000 +
             (b2 - 0x80) * 0x40 + (b3 - 0x80) ∧
           (b - 0xF0) * 0x40000 + (b1 - 0x80) * 0x1000 +
             (b2 - 0x80) * 0x40 + (b3 - 0x80) < 0x110000 then
          some ((b - 0xF0) * 0x40000 + (b1 - 0x80) * 0x1000 +
            (b2 - 0x80) * 0x40 + (b3 - 0x80), rest4)
        else none
      else none
    | _ => none
  else none

def utf8DecodeLoop : Nat → List Nat → Option Str
  | _, [] => some []
  | 0, _ :: _ => none
  | fuel + 1, b :: rest =>
    match utf8DecodeOne b rest with
    | some nr => (utf8DecodeLoop fuel nr.2).map (fun s => Char.ofNat nr.1 :: s)
    | none => none

def utf8Decode (bs : List Nat) : Option Str := utf8DecodeLoop bs.length bs



theorem utf8Encode_cons (c : Char) (s' : Str) :
    utf8Encode (c :: s') = utf8EncodeChar c ++ utf8Encode s' := by
  simp [utf8Encode]

theorem utf8EncodeChar_one (c : Char) (h : c.toNat < 0x80) :
    utf8EncodeChar c = [c.toNat] := by
  simp [utf8EncodeChar, h]

theorem utf8EncodeChar_two (c : Char) (h1 : ¬c.toNat < 0x80) (h2 : c.toNat < 0x800) :
    utf8EncodeChar c = [0xC0 + c.toNat / 0x40, 0x80 + c.toNat % 0x40] := by
  simp [utf8EncodeChar, h1, h2]

theorem utf8EncodeChar_three (c : Char) (h1 : ¬c.toNat < 0x800) (h2 : c.toNat < 0x10000) :
    utf8EncodeChar c =
      [0xE0 + c.toNat / 0x1000, 0x80 + c.toNat / 0x40 % 0x40, 0x80 + c.toNat % 0x40] := by
  have h0 : ¬c.toNat < 0x80 := by omega
  simp [utf8EncodeChar, h0, h1, h2]

theorem utf8EncodeChar_four (c : Char) (h1 : ¬c.toNat < 0x10000) :
    utf8EncodeChar c =
      [0xF0 + c.toNat / 0x40000, 0x80 + c.toNat / 0x1000 % 0x40,
       0x80 + c.toNat / 0x40 % 0x40, 0x80 + c.toNat % 0x40] := by
  have h0 : ¬c.toNat < 0x80 := by omega
  have h2 : ¬c.toNat < 0x800 := by omega
  simp [utf8EncodeChar, h0, h2, h1]

/-- A successfully decoded code point is valid and re-encodes to exactly
the bytes it consumed. -/
theorem utf8DecodeOne_spec (b : Nat) (rest : List Nat) (n : Nat)
    (rest' : List Nat) (h : utf8DecodeOne b rest = some (n, rest')) :
    n.isValidChar ∧ utf8EncodeChar (Char.ofNat n) ++ rest' = b :: rest := by
  unfold utf8DecodeOne at h
  split at h
  · rename_i hb
    rw [Option.some.injEq, Prod.mk.injEq] at h
    obtain ⟨rfl, rfl⟩ := h
    have hval : b.isValidChar := Or.inl (by omega)
    have htn := toNat_ofNat_valid b hval
    refine ⟨hval, ?_⟩
    rw [utf8EncodeChar_one _ (by rw [htn]; omega), htn]
    rfl
  · rename_i hb0
    split at h
    · exact Option.noConfusion h
    · rename_i hb1
      split at h
      · rename_i hb2
        split at h
        · rename_i b1 rest2
          split at h
          · rename_i hcont
            rw [Option.some.injEq, Prod.mk.injEq] at h
            obtain ⟨rfl, rfl⟩ := h
            have hval : ((b - 0xC0) * 0x40 + (b1 - 0x80)).isValidChar :=
              Or.inl (by omega)
            have htn := toNat_ofNat_valid _ hval
            refine ⟨hval, ?_⟩
            rw [utf8EncodeChar_two _ (by rw [htn]; omega) (by rw [htn]; omega), htn]
            simp only [List.cons_append, List.nil_append, List.cons.injEq]
            refine ⟨by omega, by omega, trivial⟩
          · exact Option.noConfusion h
        · exact Option.noConfusion h
      · rename_i hb2
        split at h
        · rename_i hb3
          split at h
          · rename_i b1 b2 rest3
            split at h
            · rename_i hcont
              split at h
              · rename_i hrange
                rw [Option.some.injEq, Prod.mk.injEq] at h
                obtain ⟨rfl, rfl⟩ := h
                obtain ⟨hcont1, hcont2⟩ := hcont
                obtain ⟨hr1, hr2⟩ := hrange
                have hval :
                    ((b - 0xE0) * 0x1000 + (b1 - 0x80) * 0x40 + (b2 - 0x80)).isValidChar := by
                  rcases Nat.lt_or_ge
                    ((b - 0xE0) * 0x1000 + (b1 - 0x80) * 0x40 + (b2 - 0x80))
                    0xD800 with hlt | hge
                  · exact Or.inl hlt
                  · exact Or.inr ⟨by omega, by omega⟩
                have htn := toNat_ofNat_valid _ hval
                refine ⟨hval, ?_⟩
                rw [utf8EncodeChar_three _ (by rw [htn]; omega) (by rw [htn]; omega), htn]
                simp only [List.cons_append, List.nil_append, List.cons.injEq]
                refine ⟨by omega, by omega, by omega, trivial⟩
              · exact Option.noConfusion h
            · exact Option.noConfusion h
          · exact Option.noConfusion h
        · rename_i hb3
          split at h
          · rename_i hb4
            split at h
            · rename_i b1 b2 b3 rest4
              split at h
              · rename_i hcont
                split at h
                · rename_i hrange
                  rw [Option.some.injEq, Prod.mk.injEq] at h
                  obtain ⟨rfl, rfl⟩ := h
                  obtain ⟨hcont1, hcont2, hcont3⟩ := hcont
                  obtain ⟨hr1, hr2⟩ := hrange
                  have hval :
                      ((b - 0xF0) * 0x40000 + (b1 - 0x80) * 0x1000 +
                        (b2 - 0x80) * 0x40 + (b3 - 0x80)).isValidChar :=
                    Or.inr ⟨by omega, by omega⟩
                  have htn := toNat_ofNat_valid _ hval
                  refine ⟨hval, ?_⟩
                  rw [utf8EncodeChar_four _ (by rw [htn]; omega), htn]
                  simp only [List.cons_append, List.nil_append, List.cons.injEq]
                  refine ⟨by omega, by omega, by omega, by omega, trivial⟩
                · exact Option.noConfusion h
              · exact Option.noConfusion h
            · exact Option.noConfusion h
          · exact Option.noConfusion h

theorem utf8DecodeLoop_encode : ∀ (fuel : Nat) (bs : List Nat) (s : Str),
    utf8DecodeLoop fuel bs = some s → utf8Encode s = bs := by
  intro fuel
  induction fuel with
  | zero =>
    intro bs s h
    cases bs with
    | nil =>
      rw [utf8DecodeLoop] at h
      obtain rfl := Option.some.inj h
      rfl
    | cons b rest =>
      rw [utf8DecodeLoop] at h
      exact Option.noConfusion h
  | succ fuel ih =>
    intro bs s h
    cases bs with
    | nil =>
      rw [utf8DecodeLoop] at h
      obtain rfl := Option.some.inj h
      rfl
    | cons b rest =>
      rw [utf8DecodeLoop] at h
      rcases hone : utf8DecodeOne b rest with _ | ⟨n, rest'⟩ <;> rw [hone] at h
      · exact Option.noConfusion h
      · obtain ⟨s', hdec, rfl⟩ := Option.map_eq_some'.1 h
        obtain ⟨hval, henc⟩ := utf8DecodeOne_spec b rest n rest' hone
        rw [utf8Encode_cons, ih rest' s' hdec, henc]

theorem utf8Encode_decode (bs : List Nat) (s : Str)
    (h : utf8Decode bs = some s) : utf8Encode s = bs :=
  utf8DecodeLoop_encode bs.length bs s h

def bomLeads : List Nat → Bool
  | a :: b :: c :: _ => a = 0xEF && b = 0xBB && c = 0xBF
  | _ => false

theorem bomLeads_eq (raw : List Nat) (h : bomLeads raw = true) :
    raw = 0xEF :: 0xBB :: 0xBF :: raw.drop 3 := by
  rcases raw with _ | ⟨a, _ | ⟨b, _ | ⟨c, t⟩⟩⟩ <;> simp [bomLeads] at h
  obtain ⟨⟨rfl, rfl⟩, rfl⟩ := h
  rfl

def load_bytes (raw : List Nat) : Option (String × Str) :=
  if bomLeads raw then
    (utf8Decode (raw.drop 3)).map (fun c => ("utf-8-sig", c))
  else
    match utf8Decode raw with
    | some c => some ("utf-8", c)
    | none => some ("latin-1", raw.map Char.ofNat)

def encode_with (encoding : String) (s : Str) : List Nat :=
  if encoding = "utf-8-sig" then [0xEF, 0xBB, 0xBF] ++ utf8Encode s
  else if encoding = "latin-1" then s.map Char.toNat
  else utf8Encode s

theorem latin1_roundtrip (raw : List Nat) (hb : ∀ b ∈ raw, b < 256) :
    (raw.map Char.ofNat).map Char.toNat = raw := by
  induction raw with
  | nil => rfl
  | cons a t ih =>
    have ha : a.isValidChar := Or.inl (by have := hb a (by simp); omega)
    simp only [List.map_cons, toNat_ofNat_valid a ha, List.cons.injEq]
    exact ⟨trivial, ih (fun b hbm => hb b (by simp [hbm]))⟩

theorem load_bytes_roundtrip (raw : List Nat) (hb : ∀ b ∈ raw, b < 256)
    (enc : String) (content : Str) (h : load_bytes raw = some (enc, content)) :
    encode_with enc content = raw := by
  unfold load_bytes at h
  split at h
  · rename_i hbom
    obtain ⟨c, hdec, hpair⟩ := Option.map_eq_some'.1 h
    rw [Prod.mk.injEq] at hpair
    obtain ⟨h1, rfl⟩ := hpair
    subst h1
    unfold encode_with
    rw [if_pos rfl, utf8Encode_decode _ _ hdec]
    exact (bomLeads_eq raw hbom).symm
  · rename_i hbom
    rcases hdec : utf8Decode raw with _ | c <;> rw [hdec] at h <;>
      rw [Option.some.injEq, Prod.mk.injEq] at h
    · obtain ⟨rfl, rfl⟩ := h
      unfold encode_with
      rw [if_neg (by decide), if_pos rfl]
      exact latin1_roundtrip raw hb
    · obtain ⟨rfl, rfl⟩ := h
      unfold encode_with
      rw [if_neg (by decide), if_neg (by decide)]
      exact utf8Encode_decode raw c hdec

theorem utf8Encode_append (a b : Str) :
    utf8Encode (a ++ b) = utf8Encode a ++ utf8Encode b := by
  simp [utf8Encode]

theorem utf8Encode_ascii (tail : Str) (h : ∀ c ∈ tail, c.toNat < 0x80) :
    utf8Encode tail = tail.map Char.toNat := by
  induction tail with
  | nil => rfl
  | cons c t ih =>
    rw [utf8Encode_cons, utf8EncodeChar_one c (h c (by simp)),
      ih (fun x hx => h x (by simp [hx]))]
    rfl

theorem encode_with_append_ascii (enc : String) (a tail : Str)
    (h : ∀ c ∈ tail, c.toNat < 0x80) :
    encode_with enc (a ++ tail) = encode_with enc a ++ tail.map Char.toNat := by
  unfold encode_with
  split
  · rw [utf8Encode_append, utf8Encode_ascii tail h, List.append_assoc]
  · split
    · rw [List.map_append]
    · rw [utf8Encode_append, utf8Encode_ascii tail h]

/-- C5: for a file whose raw bytes decode per the loader (BOM-aware UTF-8
with Latin-1 fallback), `md_apply` with an empty edit list and
`dry_run = false` writes content that re-encodes (with the original
encoding, BOM reattached) to exactly the original raw bytes — so its
SHA-256 equals the supplied base hash — except that the bytes of one eol
sequence are appended when `ensure_final_newline` holds and the original
content lacked a final newline. -/
theorem md_apply_no_op_identity (engine : RegexEngine)
    (yaml : Option (List (String × String) → Str)) (raw : List Nat)
    (enc : String) (content : Str) (sha : String) (secs : List Section)
    (cbs : List CodeBlock) (tbls : List TableInfo)
    (fm : Option (List (String × String))) (fml : Option (Nat × Nat))
    (atomic : Bool) (fmt : Option (Str → Except String Str)) (efn : Bool)
    (hb : ∀ b ∈ raw, b < 256)
    (hload : load_bytes raw = some (enc, content)) :
    md_apply engine yaml (load sha content secs cbs tbls fm fml) sha []
        atomic false "none" fmt efn =
      (.success
        (if efn && !(content.getLast? == some '\n') then
          content ++ (if containsCRLF content then ['\r', '\n'] else ['\n'])
        else content) 0 false [] [],
       some (if efn && !(content.getLast? == some '\n') then
          content ++ (if containsCRLF content then ['\r', '\n'] else ['\n'])
        else content)) ∧
    encode_with enc
        (if efn && !(content.getLast? == some '\n') then
          content ++ (if containsCRLF content then ['\r', '\n'] else ['\n'])
        else content) =
      (if efn && !(content.getLast? == some '\n') then
        raw ++ (if containsCRLF content then [0x0D, 0x0A] else [0x0A])
      else raw) := by
  refine ⟨md_apply_empty_edits_content engine yaml sha content secs cbs tbls
    fm fml atomic fmt efn, ?_⟩
  have hrt := load_bytes_roundtrip raw hb enc content hload
  by_cases he : (efn && !(content.getLast? == some '\n')) = true
  · rw [if_pos he, if_pos he]
    by_cases hcr : containsCRLF content
    · rw [if_pos hcr, if_pos hcr,
        encode_with_append_ascii enc content ['\r', '\n'] (by decide), hrt]
      rfl
    · rw [if_neg hcr, if_neg hcr,
        encode_with_append_ascii enc content ['\n'] (by decide), hrt]
      rfl
  · rw [if_neg he, if_neg he]
    exact hrt

def c5_engine : RegexEngine := ⟨id, fun _ _ => .error "external"⟩

/-- Witness for C5 on the two-byte ASCII file `"hi"` (no final newline):
the written content is `"hi\n"`, whose UTF-8 bytes are the original raw
bytes plus one `0x0A`. -/
theorem md_apply_no_op_identity_witness :
    (∀ b ∈ [104, 105], b < 256) ∧
    load_bytes [104, 105] = some ("utf-8", "hi".toList) ∧
    md_apply c5_engine none (load "sha0" "hi".toList [] [] [] none none)
        "sha0" [] true false "none" none true =
      (.success "hi\n".toList 0 false [] [], some "hi\n".toList) ∧
    encode_with "utf-8" "hi\n".toList = [104, 105, 10] := by
  have h := md_apply_no_op_identity c5_engine none [104, 105] "utf-8"
    "hi".toList "sha0" [] [] [] none none true none true
    (by decide) (by decide)
  refine ⟨by decide, by decide, ?_, by decide⟩
  rw [h.1]
  decide

end MdTools
